import Mathlib

/-! stoplight: the keyed lock registry of `mutex.go`

A shallow embedding of the five HTTP handlers of `mutex.go` and of the route
table that `main` registers, followed by theorems about them.

* Go's `map[string]struct{}` is a finite set of strings, `map[string]uint` a
  finite map from strings to machine words.  Both are extensional: two maps
  with the same entries are equal, as in Go where a map has no observable
  order.
* Go's `uint` is `w` bits wide (`w` is 32 or 64, fixed by the platform); it is
  embedded as the naturals below `2 ^ w`, and `+= 1` / `-= 1` reduce modulo
  `2 ^ w` explicitly.
* Every handler body runs between `mmut.Mut.Lock()` and `mmut.Mut.Unlock()`
  (`RLock`/`RUnlock` for status).  The embedding is the sequential semantics
  of one handler call: a function from the registry before the call and the
  value of `r.URL.Query().Get("key")` to the status code written and the
  registry after the call.
-/

namespace Stoplight

/-! ## Status codes of `net/http` used by the handlers -/

/-- The constant `http.StatusOK`. -/
def StatusOK : Nat := 200

/-- The constant `http.StatusAccepted`. -/
def StatusAccepted : Nat := 202

/-- The constant `http.StatusBadRequest`. -/
def StatusBadRequest : Nat := 400

/-- The constant `http.StatusConflict`. -/
def StatusConflict : Nat := 409

/-- The constant `http.StatusLocked`. -/
def StatusLocked : Nat := 423

/-! ## Machine words -/

/-- Go's `uint` of bit width `w`: a natural number below `2 ^ w`. -/
abbrev GoUint (w : Nat) : Type := { n : Nat // n < 2 ^ w }

/-- The zero value of `uint`, which a Go map read returns for a missing key. -/
def GoUint.zero (w : Nat) : GoUint w := ⟨0, Nat.two_pow_pos w⟩

/-- Go's `x += 1` on a `uint`: addition modulo `2 ^ w`. -/
def GoUint.incr {w : Nat} (x : GoUint w) : GoUint w :=
  ⟨(x.val + 1) % 2 ^ w, Nat.mod_lt _ (Nat.two_pow_pos w)⟩

/-- Go's `x -= 1` on a `uint`: subtraction modulo `2 ^ w`. -/
def GoUint.decr {w : Nat} (x : GoUint w) : GoUint w :=
  ⟨(x.val + 2 ^ w - 1) % 2 ^ w, Nat.mod_lt _ (Nat.two_pow_pos w)⟩

/-! ## The registry -/

/-- The struct `MapMutex` without its `Mut` field: `Keys` is the set of keys
that hold a write lock, `RKeys` maps a key to its number of read locks. -/
structure MapMutex (w : Nat) where
  /-- The field `Keys map[string]struct{}`. -/
  Keys : Finset String
  /-- The field `RKeys map[string]uint`. -/
  RKeys : Finmap (fun _ : String => GoUint w)
  deriving DecidableEq

/-- The registry that `main` builds: both maps freshly made, hence empty. -/
def MapMutex.empty (w : Nat) : MapMutex w := ⟨∅, ∅⟩

/-- The Go expression `mmut.RKeys[val]`: the stored count, or zero for a key
that has no entry. -/
def MapMutex.readers {w : Nat} (mmut : MapMutex w) (val : String) : GoUint w :=
  (mmut.RKeys.lookup val).getD (GoUint.zero w)

/-- The spec's `writer_held(key)`: the key has an entry in `Keys`. -/
def MapMutex.writerHeld {w : Nat} (mmut : MapMutex w) (val : String) : Prop :=
  val ∈ mmut.Keys

instance {w : Nat} (mmut : MapMutex w) (val : String) : Decidable (mmut.writerHeld val) :=
  inferInstanceAs (Decidable (val ∈ mmut.Keys))

/-- The spec's `reader_count(key)` as a natural number. -/
def MapMutex.readerCount {w : Nat} (mmut : MapMutex w) (val : String) : Nat :=
  (mmut.readers val).val

/-! ## The handlers -/

/-- The handler returned by `LockHandlerFactory`. -/
def LockHandlerFactory {w : Nat} (mmut : MapMutex w) (val : String) : Nat × MapMutex w :=
  if val = "" then (StatusBadRequest, mmut)
  else
    let present : Bool := decide (val ∈ mmut.Keys)
    let readers : GoUint w := mmut.readers val
    let mmut1 : MapMutex w :=
      if !present && readers.val == 0 then { mmut with Keys := insert val mmut.Keys } else mmut
    if present || decide (readers.val > 0) then (StatusConflict, mmut1)
    else (StatusAccepted, mmut1)

/-- The handler returned by `RLockHandlerFactory`. -/
def RLockHandlerFactory {w : Nat} (mmut : MapMutex w) (val : String) : Nat × MapMutex w :=
  if val = "" then (StatusBadRequest, mmut)
  else
    let wlock : Bool := decide (val ∈ mmut.Keys)
    let mmut1 : MapMutex w :=
      if !wlock then { mmut with RKeys := mmut.RKeys.insert val (mmut.readers val).incr }
      else mmut
    if wlock then (StatusConflict, mmut1) else (StatusAccepted, mmut1)

/-- The handler returned by `UnlockHandlerFactory`. -/
def UnlockHandlerFactory {w : Nat} (mmut : MapMutex w) (val : String) : Nat × MapMutex w :=
  if val = "" then (StatusBadRequest, mmut)
  else
    let present : Bool := decide (val ∈ mmut.Keys)
    let mmut1 : MapMutex w :=
      if present then { mmut with Keys := mmut.Keys.erase val } else mmut
    if !present then (StatusConflict, mmut1) else (StatusAccepted, mmut1)

/-- The handler returned by `RUnlockHandlerFactory`. -/
def RUnlockHandlerFactory {w : Nat} (mmut : MapMutex w) (val : String) : Nat × MapMutex w :=
  if val = "" then (StatusBadRequest, mmut)
  else
    let readers : GoUint w := mmut.readers val
    let mmut1 : MapMutex w :=
      if readers.val > 0 then { mmut with RKeys := mmut.RKeys.insert val (mmut.readers val).decr }
      else mmut
    (StatusAccepted, mmut1)

/-- The handler returned by `StatusHandlerFactory`. -/
def StatusHandlerFactory {w : Nat} (mmut : MapMutex w) (val : String) : Nat × MapMutex w :=
  if val = "" then (StatusBadRequest, mmut)
  else
    let present : Bool := decide (val ∈ mmut.Keys)
    if present then (StatusLocked, mmut) else (StatusOK, mmut)

/-! ## The route table of `main` -/

/-- The five patterns that `main` registers on the mux. -/
inductive Route where
  | lock
  | unlock
  | rlock
  | runlock
  | status
  deriving DecidableEq, Repr

/-- One request: the route it is dispatched to and the value of its `key`
query parameter (the empty string when the parameter is missing). -/
structure Call where
  /-- The route of the request. -/
  route : Route
  /-- The value of `r.URL.Query().Get("key")`. -/
  key : String
  deriving DecidableEq, Repr

/-- The dispatch of `main`: each route runs the handler registered for it. -/
def serve {w : Nat} (mmut : MapMutex w) (c : Call) : Nat × MapMutex w :=
  match c.route with
  | Route.lock => LockHandlerFactory mmut c.key
  | Route.unlock => UnlockHandlerFactory mmut c.key
  | Route.rlock => RLockHandlerFactory mmut c.key
  | Route.runlock => RUnlockHandlerFactory mmut c.key
  | Route.status => StatusHandlerFactory mmut c.key

/-- The registry after serving a list of requests one after the other. -/
def serveAll {w : Nat} (mmut : MapMutex w) : List Call → MapMutex w
  | [] => mmut
  | c :: cs => serveAll (serve mmut c).2 cs

/-- The status codes written while serving a list of requests one after the
other. -/
def responses {w : Nat} (mmut : MapMutex w) : List Call → List Nat
  | [] => []
  | c :: cs => (serve mmut c).1 :: responses (serve mmut c).2 cs

/-! ## Registries used as concrete inputs -/

/-- A registry of a 64-bit platform in which `"blah"` holds three read locks
and no write lock. -/
def threeReaders : MapMutex 64 :=
  ⟨∅, Finmap.singleton "blah" ⟨3, by decide⟩⟩

/-- A registry of a 64-bit platform in which `"blah"` holds a write lock. -/
def writeLocked : MapMutex 64 :=
  ⟨{"blah"}, ∅⟩

/-- A registry of a 64-bit platform in which the reader count of `"blah"` is
the largest `uint`, `2 ^ 64 - 1`, and no write lock is held. -/
def maxReaders : MapMutex 64 :=
  ⟨∅, Finmap.singleton "blah" ⟨18446744073709551615, by decide⟩⟩

/-! ## Predicates on registries and on request lists -/

/-- Mutual exclusion: no key has both a write lock and a positive reader
count. -/
def Exclusive {w : Nat} (mmut : MapMutex w) : Prop :=
  ∀ k : String, ¬ (mmut.writerHeld k ∧ 0 < mmut.readerCount k)

/-- The request `GET /lock?key=k`. -/
def lockCall (k : String) : Call := ⟨Route.lock, k⟩

/-- The request `GET /unlock?key=k`. -/
def unlockCall (k : String) : Call := ⟨Route.unlock, k⟩

/-- The request `GET /rlock?key=k`. -/
def rlockCall (k : String) : Call := ⟨Route.rlock, k⟩

/-- The request `GET /runlock?key=k`. -/
def runlockCall (k : String) : Call := ⟨Route.runlock, k⟩

/-- The request `GET /status?key=k`. -/
def statusCall (k : String) : Call := ⟨Route.status, k⟩

/-! ## Requests as the mux sees them -/

/-- The constant `http.StatusNotFound`, which `http.ServeMux` writes for a
request that matches none of its patterns. -/
def StatusNotFound : Nat := 404

/-- The expression `r.URL.Query().Get("key")`: the value of the `key`
parameter when the request carries one, the empty string when it carries
none. -/
def queryKey (param : Option String) : String :=
  match param with
  | some v => v
  | none => ""

/-- The pattern, among the five that `main` registers, which a `GET` request
for `path` matches. -/
def mainPattern (path : String) : Option Route :=
  if path = "/lock" then some Route.lock
  else if path = "/unlock" then some Route.unlock
  else if path = "/rlock" then some Route.rlock
  else if path = "/runlock" then some Route.runlock
  else if path = "/status" then some Route.status
  else none

/-- The mux that `main` builds, on a `GET` request: a path with a registered
pattern runs its handler, any other path is answered by the mux itself with
404 and never reaches a handler. -/
def main {w : Nat} (mmut : MapMutex w) (path : String) (param : Option String) :
    Nat × MapMutex w :=
  match mainPattern path with
  | some r => serve mmut ⟨r, queryKey param⟩
  | none => (StatusNotFound, mmut)

/-- Modelled from the spec: the handler `HealthHanderFactory()`, which
`RunLocalhost` of `mutex_test.go` registers and `mutex.go` does not define.
The spec's route table gives the health route the single outcome 200 OK and no
registry operation; the factory takes no registry, so the handler cannot touch
one. -/
def HealthHanderFactory {w : Nat} (mmut : MapMutex w) (_val : String) : Nat × MapMutex w :=
  (StatusOK, mmut)

/-- The mux that `RunLocalhost` of `mutex_test.go` builds, on a `GET` request:
the pattern `GET /health` first, then the five patterns of `main`. -/
def RunLocalhost {w : Nat} (mmut : MapMutex w) (path : String) (param : Option String) :
    Nat × MapMutex w :=
  if path = "/health" then HealthHanderFactory mmut (queryKey param)
  else main mmut path param

/-! ## Registries that agree on the lock state -/

/-- Two registries agree when every key has a write lock in both or in
neither and has the same reader count in both, a key without an entry in
`RKeys` counting as 0. -/
def Agree {w : Nat} (s t : MapMutex w) : Prop :=
  ∀ k : String, (s.writerHeld k ↔ t.writerHeld k) ∧ s.readerCount k = t.readerCount k

/-- A registry of a 64-bit platform whose `RKeys` holds the entry
`"blah" : 0`, as left behind by `rlock` then `runlock`. -/
def zeroEntry : MapMutex 64 :=
  ⟨∅, (∅ : Finmap (fun _ : String => GoUint 64)).insert "blah" (GoUint.zero 64)⟩

/-! ## Counting the calls that move a reader count -/

/-- The number of `rlock` calls on `k` in the list that are answered 202, the
list being served from `mmut`. -/
def grantedReads {w : Nat} (k : String) : MapMutex w → List Call → Nat
  | _, [] => 0
  | mmut, c :: cs =>
    (if c = rlockCall k ∧ (serve mmut c).1 = StatusAccepted then 1 else 0)
      + grantedReads k (serve mmut c).2 cs

/-- The number of `runlock` calls on `k` in the list that are made while the
reader count of `k` is positive, the list being served from `mmut`. -/
def positiveReleases {w : Nat} (k : String) : MapMutex w → List Call → Nat
  | _, [] => 0
  | mmut, c :: cs =>
    (if c = runlockCall k ∧ 0 < mmut.readerCount k then 1 else 0)
      + positiveReleases k (serve mmut c).2 cs

/-! ## One call, case by case -/

theorem lock_of_free {w : Nat} (mmut : MapMutex w) (k : String) (hk : k ≠ "")
    (h1 : k ∉ mmut.Keys) (h2 : (mmut.readers k).val = 0) :
    LockHandlerFactory mmut k = (202, { mmut with Keys := insert k mmut.Keys }) := by
  simp [LockHandlerFactory, hk, h1, h2, StatusAccepted]

theorem lock_of_busy {w : Nat} (mmut : MapMutex w) (k : String) (hk : k ≠ "")
    (h : k ∈ mmut.Keys ∨ 0 < (mmut.readers k).val) :
    LockHandlerFactory mmut k = (409, mmut) := by
  rcases h with h | h
  · simp [LockHandlerFactory, hk, h, StatusConflict]
  · have h0 : (mmut.readers k).val ≠ 0 := Nat.pos_iff_ne_zero.mp h
    simp [LockHandlerFactory, hk, h, h0, StatusConflict]

theorem rlock_of_free {w : Nat} (mmut : MapMutex w) (k : String) (hk : k ≠ "")
    (h : k ∉ mmut.Keys) :
    RLockHandlerFactory mmut k
      = (202, { mmut with RKeys := mmut.RKeys.insert k (mmut.readers k).incr }) := by
  simp [RLockHandlerFactory, hk, h, StatusAccepted]

theorem rlock_of_held {w : Nat} (mmut : MapMutex w) (k : String) (hk : k ≠ "")
    (h : k ∈ mmut.Keys) :
    RLockHandlerFactory mmut k = (409, mmut) := by
  simp [RLockHandlerFactory, hk, h, StatusConflict]

theorem unlock_of_held {w : Nat} (mmut : MapMutex w) (k : String) (hk : k ≠ "")
    (h : k ∈ mmut.Keys) :
    UnlockHandlerFactory mmut k = (202, { mmut with Keys := mmut.Keys.erase k }) := by
  simp [UnlockHandlerFactory, hk, h, StatusAccepted]

theorem unlock_of_free {w : Nat} (mmut : MapMutex w) (k : String) (hk : k ≠ "")
    (h : k ∉ mmut.Keys) :
    UnlockHandlerFactory mmut k = (409, mmut) := by
  simp [UnlockHandlerFactory, hk, h, StatusConflict]

theorem runlock_of_pos {w : Nat} (mmut : MapMutex w) (k : String) (hk : k ≠ "")
    (h : 0 < (mmut.readers k).val) :
    RUnlockHandlerFactory mmut k
      = (202, { mmut with RKeys := mmut.RKeys.insert k (mmut.readers k).decr }) := by
  simp [RUnlockHandlerFactory, hk, h, StatusAccepted]

theorem runlock_of_zero {w : Nat} (mmut : MapMutex w) (k : String) (hk : k ≠ "")
    (h : (mmut.readers k).val = 0) :
    RUnlockHandlerFactory mmut k = (202, mmut) := by
  simp [RUnlockHandlerFactory, hk, h, StatusAccepted]

theorem status_of_held {w : Nat} (mmut : MapMutex w) (k : String) (hk : k ≠ "")
    (h : k ∈ mmut.Keys) :
    StatusHandlerFactory mmut k = (423, mmut) := by
  simp [StatusHandlerFactory, hk, h, StatusLocked]

theorem status_of_free {w : Nat} (mmut : MapMutex w) (k : String) (hk : k ≠ "")
    (h : k ∉ mmut.Keys) :
    StatusHandlerFactory mmut k = (200, mmut) := by
  simp [StatusHandlerFactory, hk, h, StatusOK]

/-! ## Reading the registry after a write to it -/

theorem readers_insert_self {w : Nat} (mmut : MapMutex w) (k : String) (v : GoUint w) :
    ({ mmut with RKeys := mmut.RKeys.insert k v } : MapMutex w).readers k = v := by
  simp [MapMutex.readers, Finmap.lookup_insert]

theorem readers_insert_of_ne {w : Nat} (mmut : MapMutex w) (k j : String) (v : GoUint w)
    (h : j ≠ k) :
    ({ mmut with RKeys := mmut.RKeys.insert k v } : MapMutex w).readers j = mmut.readers j := by
  simp [MapMutex.readers, Finmap.lookup_insert_of_ne _ h]

theorem incr_val_of_lt {w : Nat} (x : GoUint w) (h : x.val + 1 < 2 ^ w) :
    x.incr.val = x.val + 1 := by
  simp [GoUint.incr, Nat.mod_eq_of_lt h]

theorem decr_val_of_pos {w : Nat} (x : GoUint w) (h : 0 < x.val) :
    x.decr.val = x.val - 1 := by
  have hx : x.val < 2 ^ w := x.property
  have e : x.val + 2 ^ w - 1 = (x.val - 1) + 2 ^ w := by omega
  have hlt : x.val - 1 < 2 ^ w := by omega
  simp [GoUint.decr, e, Nat.mod_eq_of_lt hlt]

/-! ## The contract of each handler -/

/-- C1. AcquireWrite: for every registry and every non-empty key `k`, if `k`
has no write lock and its reader count is 0 the handler answers 202 and `k`
holds a write lock afterwards; otherwise it answers 409 and returns the
registry (`Keys` and `RKeys`) exactly as it was. -/
theorem acquireWrite_contract {w : Nat} (mmut : MapMutex w) (k : String) (hk : k ≠ "") :
    (¬ mmut.writerHeld k ∧ mmut.readerCount k = 0 →
      (LockHandlerFactory mmut k).1 = 202 ∧ (LockHandlerFactory mmut k).2.writerHeld k) ∧
    (¬ (¬ mmut.writerHeld k ∧ mmut.readerCount k = 0) →
      (LockHandlerFactory mmut k).1 = 409 ∧ (LockHandlerFactory mmut k).2 = mmut) := by
  constructor
  · rintro ⟨h1, h2⟩
    rw [lock_of_free mmut k hk h1 h2]
    simp [MapMutex.writerHeld]
  · intro h
    have hb : k ∈ mmut.Keys ∨ 0 < (mmut.readers k).val := by
      by_cases hm : k ∈ mmut.Keys
      · exact Or.inl hm
      · right
        have : mmut.readerCount k ≠ 0 := fun h0 => h ⟨hm, h0⟩
        exact Nat.pos_of_ne_zero this
    rw [lock_of_busy mmut k hk hb]
    exact ⟨rfl, rfl⟩

/-- Witness of C1 on the empty registry (granted) and on a registry with three
readers (denied, unchanged). -/
theorem acquireWrite_contract_witness :
    ((LockHandlerFactory (MapMutex.empty 64) "blah").1 = 202 ∧
      (LockHandlerFactory (MapMutex.empty 64) "blah").2.writerHeld "blah") ∧
    ((LockHandlerFactory threeReaders "blah").1 = 409 ∧
      (LockHandlerFactory threeReaders "blah").2 = threeReaders) :=
  ⟨(acquireWrite_contract (MapMutex.empty 64) "blah" (by decide)).1 (by decide),
   (acquireWrite_contract threeReaders "blah" (by decide)).2 (by decide)⟩

/-- C2, counterexample. On a 64-bit platform, with no write lock on `"blah"`
and a reader count of `2 ^ 64 - 1`, the read lock is granted but the count
afterwards is 0, not the count before plus one. -/
theorem acquireRead_plus_one_counterexample :
    ¬ ("blah" ≠ "" → ¬ maxReaders.writerHeld "blah" →
        (RLockHandlerFactory maxReaders "blah").1 = 202 ∧
        (RLockHandlerFactory maxReaders "blah").2.readerCount "blah"
          = maxReaders.readerCount "blah" + 1) ∧
    maxReaders.readerCount "blah" = 2 ^ 64 - 1 ∧
    (RLockHandlerFactory maxReaders "blah").1 = 202 ∧
    (RLockHandlerFactory maxReaders "blah").2.readerCount "blah" = 0 := by
  decide

/-- C2, amended. AcquireRead: for every registry and every non-empty key `k`,
if `k` has no write lock the handler answers 202 and the reader count of `k`
afterwards is the count before plus one modulo `2 ^ w`, which is the count
before plus one whenever that count is below the largest `uint`; `Keys` is
unchanged.  If `k` has a write lock it answers 409 and returns the registry
unchanged. -/
theorem acquireRead_contract {w : Nat} (mmut : MapMutex w) (k : String) (hk : k ≠ "") :
    (¬ mmut.writerHeld k →
      (RLockHandlerFactory mmut k).1 = 202 ∧
      (RLockHandlerFactory mmut k).2.readerCount k = (mmut.readerCount k + 1) % 2 ^ w ∧
      (mmut.readerCount k + 1 < 2 ^ w →
        (RLockHandlerFactory mmut k).2.readerCount k = mmut.readerCount k + 1) ∧
      (RLockHandlerFactory mmut k).2.Keys = mmut.Keys) ∧
    (mmut.writerHeld k →
      (RLockHandlerFactory mmut k).1 = 409 ∧ (RLockHandlerFactory mmut k).2 = mmut) := by
  constructor
  · intro h
    rw [rlock_of_free mmut k hk h]
    refine ⟨rfl, ?_, ?_, rfl⟩
    · simp [MapMutex.readerCount, readers_insert_self, GoUint.incr]
    · intro hlt
      simp only [MapMutex.readerCount, readers_insert_self]
      exact incr_val_of_lt _ hlt
  · intro h
    rw [rlock_of_held mmut k hk h]
    exact ⟨rfl, rfl⟩

/-- Witness of C2 (amended) on a registry with three readers (granted, four
readers afterwards) and on a write-locked registry (denied, unchanged). -/
theorem acquireRead_contract_witness :
    ((RLockHandlerFactory threeReaders "blah").1 = 202 ∧
      (RLockHandlerFactory threeReaders "blah").2.readerCount "blah" = 4) ∧
    ((RLockHandlerFactory writeLocked "blah").1 = 409 ∧
      (RLockHandlerFactory writeLocked "blah").2 = writeLocked) :=
  ⟨⟨((acquireRead_contract threeReaders "blah" (by decide)).1 (by decide)).1,
    ((acquireRead_contract threeReaders "blah" (by decide)).1 (by decide)).2.2.1 (by decide)⟩,
   (acquireRead_contract writeLocked "blah" (by decide)).2 (by decide)⟩

/-- C3. ReleaseWrite: for every registry and every non-empty key `k`, the
handler answers 202 exactly when `k` has a write lock before the call, and then
`k` has none afterwards; when `k` has no write lock (a key the registry has
never seen included) it answers 409 and returns the registry unchanged. -/
theorem releaseWrite_contract {w : Nat} (mmut : MapMutex w) (k : String) (hk : k ≠ "") :
    ((UnlockHandlerFactory mmut k).1 = 202 ↔ mmut.writerHeld k) ∧
    (mmut.writerHeld k → ¬ (UnlockHandlerFactory mmut k).2.writerHeld k) ∧
    (¬ mmut.writerHeld k →
      (UnlockHandlerFactory mmut k).1 = 409 ∧ (UnlockHandlerFactory mmut k).2 = mmut) := by
  by_cases h : k ∈ mmut.Keys
  · rw [unlock_of_held mmut k hk h]
    simp [MapMutex.writerHeld, h]
  · rw [unlock_of_free mmut k hk h]
    simp [MapMutex.writerHeld, h]

/-- Witness of C3 on a write-locked registry (released) and on the empty
registry (409, unchanged). -/
theorem releaseWrite_contract_witness :
    ((UnlockHandlerFactory writeLocked "blah").1 = 202 ∧
      ¬ (UnlockHandlerFactory writeLocked "blah").2.writerHeld "blah") ∧
    ((UnlockHandlerFactory (MapMutex.empty 64) "blah").1 = 409 ∧
      (UnlockHandlerFactory (MapMutex.empty 64) "blah").2 = MapMutex.empty 64) :=
  ⟨⟨(releaseWrite_contract writeLocked "blah" (by decide)).1.2 (by decide),
    (releaseWrite_contract writeLocked "blah" (by decide)).2.1 (by decide)⟩,
   (releaseWrite_contract (MapMutex.empty 64) "blah" (by decide)).2.2 (by decide)⟩

/-- C4. ReleaseRead: for every registry and every non-empty key `k` the
handler answers 202; a positive reader count of `k` goes down by exactly one,
a reader count of 0 stays 0, and in both cases the count afterwards is at most
the count before, so `-= 1` never wraps around. -/
theorem releaseRead_contract {w : Nat} (mmut : MapMutex w) (k : String) (hk : k ≠ "") :
    (RUnlockHandlerFactory mmut k).1 = 202 ∧
    (0 < mmut.readerCount k →
      (RUnlockHandlerFactory mmut k).2.readerCount k + 1 = mmut.readerCount k ∧
      (RUnlockHandlerFactory mmut k).2.readerCount k = mmut.readerCount k - 1) ∧
    (mmut.readerCount k = 0 → (RUnlockHandlerFactory mmut k).2.readerCount k = 0) ∧
    (RUnlockHandlerFactory mmut k).2.readerCount k ≤ mmut.readerCount k := by
  by_cases h : 0 < (mmut.readers k).val
  · rw [runlock_of_pos mmut k hk h]
    have e := decr_val_of_pos (mmut.readers k) h
    simp only [MapMutex.readerCount, readers_insert_self]
    refine ⟨trivial, fun _ => ⟨by omega, e⟩, fun h0 => by omega, by omega⟩
  · have h0 : (mmut.readers k).val = 0 := by omega
    rw [runlock_of_zero mmut k hk h0]
    simp only [MapMutex.readerCount]
    refine ⟨trivial, fun hp => by omega, fun _ => h0, le_refl _⟩

/-- Witness of C4 on a registry with three readers (two afterwards) and on the
empty registry (the count stays 0). -/
theorem releaseRead_contract_witness :
    ((RUnlockHandlerFactory threeReaders "blah").1 = 202 ∧
      (RUnlockHandlerFactory threeReaders "blah").2.readerCount "blah" = 3 - 1) ∧
    (RUnlockHandlerFactory (MapMutex.empty 64) "blah").2.readerCount "blah" = 0 :=
  ⟨⟨(releaseRead_contract threeReaders "blah" (by decide)).1,
    ((releaseRead_contract threeReaders "blah" (by decide)).2.1 (by decide)).2⟩,
   (releaseRead_contract (MapMutex.empty 64) "blah" (by decide)).2.2.1 (by decide)⟩

/-- C5. QueryStatus: for every registry and every non-empty key `k`, the
handler answers 423 if and only if `k` has a write lock and 200 otherwise; the
answer is the same on every registry with the same `Keys`, whatever the reader
counts; the registry is returned unchanged. -/
theorem queryStatus_contract {w : Nat} (mmut : MapMutex w) (k : String) (hk : k ≠ "") :
    ((StatusHandlerFactory mmut k).1 = 423 ↔ mmut.writerHeld k) ∧
    (¬ mmut.writerHeld k → (StatusHandlerFactory mmut k).1 = 200) ∧
    (∀ other : MapMutex w, other.Keys = mmut.Keys →
      (StatusHandlerFactory other k).1 = (StatusHandlerFactory mmut k).1) ∧
    (StatusHandlerFactory mmut k).2 = mmut := by
  refine ⟨?_, ?_, ?_, ?_⟩
  · by_cases h : k ∈ mmut.Keys
    · rw [status_of_held mmut k hk h]
      simp [MapMutex.writerHeld, h]
    · rw [status_of_free mmut k hk h]
      simp [MapMutex.writerHeld, h]
  · intro h
    rw [status_of_free mmut k hk h]
  · intro other he
    have ho : k ∈ other.Keys ↔ k ∈ mmut.Keys := by rw [he]
    by_cases h : k ∈ mmut.Keys
    · rw [status_of_held mmut k hk h, status_of_held other k hk (ho.mpr h)]
    · rw [status_of_free mmut k hk h, status_of_free other k hk (fun hm => h (ho.mp hm))]
  · by_cases h : k ∈ mmut.Keys
    · rw [status_of_held mmut k hk h]
    · rw [status_of_free mmut k hk h]

/-- Witness of C5: a write-locked key is reported 423, a key with three readers
and no writer is reported 200. -/
theorem queryStatus_contract_witness :
    (StatusHandlerFactory writeLocked "blah").1 = 423 ∧
    (StatusHandlerFactory threeReaders "blah").1 = 200 ∧
    (StatusHandlerFactory threeReaders "blah").2 = threeReaders :=
  ⟨(queryStatus_contract writeLocked "blah" (by decide)).1.2 (by decide),
   (queryStatus_contract threeReaders "blah" (by decide)).2.1 (by decide),
   (queryStatus_contract threeReaders "blah" (by decide)).2.2.2⟩

/-! ## Mutual exclusion -/

theorem lock_of_empty {w : Nat} (mmut : MapMutex w) :
    LockHandlerFactory mmut "" = (400, mmut) := by
  simp [LockHandlerFactory, StatusBadRequest]

theorem rlock_of_empty {w : Nat} (mmut : MapMutex w) :
    RLockHandlerFactory mmut "" = (400, mmut) := by
  simp [RLockHandlerFactory, StatusBadRequest]

theorem unlock_of_empty {w : Nat} (mmut : MapMutex w) :
    UnlockHandlerFactory mmut "" = (400, mmut) := by
  simp [UnlockHandlerFactory, StatusBadRequest]

theorem runlock_of_empty {w : Nat} (mmut : MapMutex w) :
    RUnlockHandlerFactory mmut "" = (400, mmut) := by
  simp [RUnlockHandlerFactory, StatusBadRequest]

theorem status_of_empty {w : Nat} (mmut : MapMutex w) :
    StatusHandlerFactory mmut "" = (400, mmut) := by
  simp [StatusHandlerFactory, StatusBadRequest]

theorem status_state {w : Nat} (mmut : MapMutex w) (k : String) :
    (StatusHandlerFactory mmut k).2 = mmut := by
  by_cases hk : k = ""
  · subst hk
    rw [status_of_empty]
  · by_cases h : k ∈ mmut.Keys
    · rw [status_of_held mmut k hk h]
    · rw [status_of_free mmut k hk h]

theorem readers_keys_update {w : Nat} (mmut : MapMutex w) (ks : Finset String) (j : String) :
    ({ mmut with Keys := ks } : MapMutex w).readers j = mmut.readers j := rfl

theorem lock_exclusive {w : Nat} (mmut : MapMutex w) (k : String) (h : Exclusive mmut) :
    Exclusive (LockHandlerFactory mmut k).2 := by
  by_cases hk : k = ""
  · subst hk
    rw [lock_of_empty]
    exact h
  · by_cases hf : k ∉ mmut.Keys ∧ (mmut.readers k).val = 0
    · rw [lock_of_free mmut k hk hf.1 hf.2]
      rintro j ⟨hj, hr⟩
      simp only [MapMutex.writerHeld, Finset.mem_insert] at hj
      simp only [MapMutex.readerCount, readers_keys_update] at hr
      rcases hj with rfl | hj
      · omega
      · exact h j ⟨hj, hr⟩
    · have hb : k ∈ mmut.Keys ∨ 0 < (mmut.readers k).val := by
        by_cases hm : k ∈ mmut.Keys
        · exact Or.inl hm
        · exact Or.inr (Nat.pos_of_ne_zero fun h0 => hf ⟨hm, h0⟩)
      rw [lock_of_busy mmut k hk hb]
      exact h

theorem rlock_exclusive {w : Nat} (mmut : MapMutex w) (k : String) (h : Exclusive mmut) :
    Exclusive (RLockHandlerFactory mmut k).2 := by
  by_cases hk : k = ""
  · subst hk
    rw [rlock_of_empty]
    exact h
  · by_cases hm : k ∈ mmut.Keys
    · rw [rlock_of_held mmut k hk hm]
      exact h
    · rw [rlock_of_free mmut k hk hm]
      rintro j ⟨hj, hr⟩
      simp only [MapMutex.writerHeld] at hj
      by_cases hjk : j = k
      · subst hjk
        exact hm hj
      · simp only [MapMutex.readerCount, readers_insert_of_ne mmut k j _ hjk] at hr
        exact h j ⟨hj, hr⟩

theorem unlock_exclusive {w : Nat} (mmut : MapMutex w) (k : String) (h : Exclusive mmut) :
    Exclusive (UnlockHandlerFactory mmut k).2 := by
  by_cases hk : k = ""
  · subst hk
    rw [unlock_of_empty]
    exact h
  · by_cases hm : k ∈ mmut.Keys
    · rw [unlock_of_held mmut k hk hm]
      rintro j ⟨hj, hr⟩
      simp only [MapMutex.writerHeld, Finset.mem_erase] at hj
      simp only [MapMutex.readerCount, readers_keys_update] at hr
      exact h j ⟨hj.2, hr⟩
    · rw [unlock_of_free mmut k hk hm]
      exact h

theorem runlock_exclusive {w : Nat} (mmut : MapMutex w) (k : String) (h : Exclusive mmut) :
    Exclusive (RUnlockHandlerFactory mmut k).2 := by
  by_cases hk : k = ""
  · subst hk
    rw [runlock_of_empty]
    exact h
  · by_cases hp : 0 < (mmut.readers k).val
    · rw [runlock_of_pos mmut k hk hp]
      rintro j ⟨hj, hr⟩
      simp only [MapMutex.writerHeld] at hj
      by_cases hjk : j = k
      · subst hjk
        exact h j ⟨hj, hp⟩
      · simp only [MapMutex.readerCount, readers_insert_of_ne mmut k j _ hjk] at hr
        exact h j ⟨hj, hr⟩
    · rw [runlock_of_zero mmut k hk (by omega)]
      exact h

theorem serve_exclusive {w : Nat} (mmut : MapMutex w) (c : Call) (h : Exclusive mmut) :
    Exclusive (serve mmut c).2 := by
  obtain ⟨r, k⟩ := c
  cases r
  · exact lock_exclusive mmut k h
  · exact unlock_exclusive mmut k h
  · exact rlock_exclusive mmut k h
  · exact runlock_exclusive mmut k h
  · simp only [serve]
    rw [status_state]
    exact h

theorem serveAll_exclusive {w : Nat} (cs : List Call) :
    ∀ mmut : MapMutex w, Exclusive mmut → Exclusive (serveAll mmut cs) := by
  induction cs with
  | nil => intro mmut h; exact h
  | cons c cs ih => intro mmut h; exact ih _ (serve_exclusive mmut c h)

theorem empty_exclusive (w : Nat) : Exclusive (MapMutex.empty w) := by
  rintro k ⟨hk, _⟩
  simp [MapMutex.writerHeld, MapMutex.empty] at hk

/-- C6. Mutual exclusion: in every registry reached from the empty registry by
a finite sequence of calls to the five handlers, with any keys in any order,
no key has both a write lock and a positive reader count. -/
theorem mutual_exclusion_reachable (w : Nat) (cs : List Call) (k : String) :
    ¬ ((serveAll (MapMutex.empty w) cs).writerHeld k ∧
        0 < (serveAll (MapMutex.empty w) cs).readerCount k) :=
  serveAll_exclusive cs (MapMutex.empty w) (empty_exclusive w) k

/-! ## What a call does to `Keys` -/

theorem rlock_keys {w : Nat} (mmut : MapMutex w) (j : String) :
    (RLockHandlerFactory mmut j).2.Keys = mmut.Keys := by
  by_cases hj : j = ""
  · subst hj
    rw [rlock_of_empty]
  · by_cases hm : j ∈ mmut.Keys
    · rw [rlock_of_held mmut j hj hm]
    · rw [rlock_of_free mmut j hj hm]

theorem runlock_keys {w : Nat} (mmut : MapMutex w) (j : String) :
    (RUnlockHandlerFactory mmut j).2.Keys = mmut.Keys := by
  by_cases hj : j = ""
  · subst hj
    rw [runlock_of_empty]
  · by_cases hp : 0 < (mmut.readers j).val
    · rw [runlock_of_pos mmut j hj hp]
    · rw [runlock_of_zero mmut j hj (by omega)]

theorem lock_keys_mono {w : Nat} (mmut : MapMutex w) (j k : String) (h : k ∈ mmut.Keys) :
    k ∈ (LockHandlerFactory mmut j).2.Keys := by
  by_cases hj : j = ""
  · subst hj
    rw [lock_of_empty]
    exact h
  · by_cases hf : j ∉ mmut.Keys ∧ (mmut.readers j).val = 0
    · rw [lock_of_free mmut j hj hf.1 hf.2]
      exact Finset.mem_insert_of_mem h
    · have hb : j ∈ mmut.Keys ∨ 0 < (mmut.readers j).val := by
        by_cases hm : j ∈ mmut.Keys
        · exact Or.inl hm
        · exact Or.inr (Nat.pos_of_ne_zero fun h0 => hf ⟨hm, h0⟩)
      rw [lock_of_busy mmut j hj hb]
      exact h

theorem unlock_keys_of_ne {w : Nat} (mmut : MapMutex w) (j k : String) (hjk : k ≠ j) :
    k ∈ (UnlockHandlerFactory mmut j).2.Keys ↔ k ∈ mmut.Keys := by
  by_cases hj : j = ""
  · subst hj
    rw [unlock_of_empty]
  · by_cases hm : j ∈ mmut.Keys
    · rw [unlock_of_held mmut j hj hm]
      simp [Finset.mem_erase, hjk]
    · rw [unlock_of_free mmut j hj hm]

theorem lock_granted {w : Nat} (mmut : MapMutex w) (k : String)
    (h : (LockHandlerFactory mmut k).1 = 202) :
    k ≠ "" ∧ k ∉ mmut.Keys ∧ (mmut.readers k).val = 0 ∧
      (LockHandlerFactory mmut k).2 = { mmut with Keys := insert k mmut.Keys } := by
  by_cases hk : k = ""
  · subst hk
    rw [lock_of_empty] at h
    exact absurd (show (400 : Nat) = 202 from h) (by decide)
  · by_cases hf : k ∉ mmut.Keys ∧ (mmut.readers k).val = 0
    · exact ⟨hk, hf.1, hf.2, by rw [lock_of_free mmut k hk hf.1 hf.2]⟩
    · have hb : k ∈ mmut.Keys ∨ 0 < (mmut.readers k).val := by
        by_cases hm : k ∈ mmut.Keys
        · exact Or.inl hm
        · exact Or.inr (Nat.pos_of_ne_zero fun h0 => hf ⟨hm, h0⟩)
      rw [lock_of_busy mmut k hk hb] at h
      exact absurd (show (409 : Nat) = 202 from h) (by decide)

theorem serveAll_append {w : Nat} (pre post : List Call) :
    ∀ mmut : MapMutex w, serveAll mmut (pre ++ post) = serveAll (serveAll mmut pre) post := by
  induction pre with
  | nil => intro mmut; rfl
  | cons c pre ih => intro mmut; exact ih (serve mmut c).2

/-! ## A held write lock -/

theorem serve_keeps_writer {w : Nat} (mmut : MapMutex w) (k : String) (c : Call)
    (h : k ∈ mmut.Keys) (hc : c ≠ unlockCall k) : k ∈ (serve mmut c).2.Keys := by
  obtain ⟨r, j⟩ := c
  cases r
  · exact lock_keys_mono mmut j k h
  · have hjk : k ≠ j := by
      rintro rfl
      exact hc rfl
    exact (unlock_keys_of_ne mmut j k hjk).mpr h
  · simp only [serve]
    rw [rlock_keys]
    exact h
  · simp only [serve]
    rw [runlock_keys]
    exact h
  · simp only [serve]
    rw [status_state]
    exact h

theorem serveAll_keeps_writer {w : Nat} (k : String) (cs : List Call) :
    ∀ mmut : MapMutex w, k ∈ mmut.Keys → unlockCall k ∉ cs → k ∈ (serveAll mmut cs).Keys := by
  induction cs with
  | nil => intro mmut h _; exact h
  | cons c cs ih =>
    intro mmut h hno
    have hc : c ≠ unlockCall k := fun e => hno (by simp [e])
    have hcs : unlockCall k ∉ cs := fun e => hno (List.mem_cons_of_mem _ e)
    exact ih _ (serve_keeps_writer mmut k c h hc) hcs

/-- C7. A write lock blocks until released: after an AcquireWrite(k) answered
202, along every finite sequence of calls without a ReleaseWrite(k), `k` has
its write lock after every prefix of the sequence, every AcquireWrite(k) and
AcquireRead(k) of the sequence is answered 409 and every QueryStatus(k) 423;
in particular so are the status query and the second AcquireWrite(k) that
directly follow the grant. -/
theorem write_lock_blocks_until_released {w : Nat} (mmut : MapMutex w) (k : String)
    (hgrant : (LockHandlerFactory mmut k).1 = 202)
    (cs : List Call) (hno : unlockCall k ∉ cs) :
    (∀ pre post : List Call, cs = pre ++ post →
      (serveAll (LockHandlerFactory mmut k).2 pre).writerHeld k) ∧
    (∀ (pre : List Call) (c : Call) (post : List Call), cs = pre ++ c :: post →
      (c = lockCall k ∨ c = rlockCall k →
        (serve (serveAll (LockHandlerFactory mmut k).2 pre) c).1 = 409) ∧
      (c = statusCall k →
        (serve (serveAll (LockHandlerFactory mmut k).2 pre) c).1 = 423)) ∧
    (StatusHandlerFactory (LockHandlerFactory mmut k).2 k).1 = 423 ∧
    (LockHandlerFactory (LockHandlerFactory mmut k).2 k).1 = 409 := by
  obtain ⟨hk, _, _, hst⟩ := lock_granted mmut k hgrant
  have h0 : k ∈ (LockHandlerFactory mmut k).2.Keys := by
    rw [hst]
    exact Finset.mem_insert_self _ _
  have hpre : ∀ pre post : List Call, cs = pre ++ post →
      k ∈ (serveAll (LockHandlerFactory mmut k).2 pre).Keys := by
    intro pre post e
    apply serveAll_keeps_writer k pre _ h0
    intro hm
    exact hno (by rw [e]; exact List.mem_append_left _ hm)
  refine ⟨hpre, ?_, ?_, ?_⟩
  · intro pre c post e
    have hm := hpre pre (c :: post) e
    constructor
    · rintro (rfl | rfl)
      · simp only [serve, lockCall]
        rw [lock_of_busy _ k hk (Or.inl hm)]
      · simp only [serve, rlockCall]
        rw [rlock_of_held _ k hk hm]
    · rintro rfl
      simp only [serve, statusCall]
      rw [status_of_held _ k hk hm]
  · rw [status_of_held _ k hk h0]
  · rw [lock_of_busy _ k hk (Or.inl h0)]

/-- Witness of C7 on the empty registry: after `lock`, the calls `status`,
`rlock`, `runlock`, `lock` on the same key leave the write lock in place. -/
theorem write_lock_blocks_until_released_witness :
    (serveAll (LockHandlerFactory (MapMutex.empty 64) "blah").2
      [statusCall "blah", rlockCall "blah", runlockCall "blah", lockCall "blah"]).writerHeld
        "blah" ∧
    (StatusHandlerFactory (LockHandlerFactory (MapMutex.empty 64) "blah").2 "blah").1 = 423 ∧
    (LockHandlerFactory (LockHandlerFactory (MapMutex.empty 64) "blah").2 "blah").1 = 409 :=
  ⟨(write_lock_blocks_until_released (MapMutex.empty 64) "blah" (by decide)
      [statusCall "blah", rlockCall "blah", runlockCall "blah", lockCall "blah"]
      (by decide)).1 _ [] (List.append_nil _).symm,
   (write_lock_blocks_until_released (MapMutex.empty 64) "blah" (by decide)
      [statusCall "blah", rlockCall "blah", runlockCall "blah", lockCall "blah"]
      (by decide)).2.2⟩

/-! ## Releasing readers one by one -/

theorem runlock_readers_self {w : Nat} (mmut : MapMutex w) (k : String) (hk : k ≠ "") :
    ((RUnlockHandlerFactory mmut k).2.readers k).val = (mmut.readers k).val - 1 := by
  by_cases hp : 0 < (mmut.readers k).val
  · rw [runlock_of_pos mmut k hk hp, readers_insert_self]
    exact decr_val_of_pos _ hp
  · have h0 : (mmut.readers k).val = 0 := by omega
    rw [runlock_of_zero mmut k hk h0]
    simp only [h0]

theorem serveAll_runlock_replicate {w : Nat} (k : String) (hk : k ≠ "") (m : Nat) :
    ∀ mmut : MapMutex w,
      ((serveAll mmut (List.replicate m (runlockCall k))).readers k).val
          = (mmut.readers k).val - m ∧
      (serveAll mmut (List.replicate m (runlockCall k))).Keys = mmut.Keys := by
  induction m with
  | zero => intro mmut; exact ⟨rfl, rfl⟩
  | succ m ih =>
    intro mmut
    have h := ih (RUnlockHandlerFactory mmut k).2
    rw [runlock_readers_self mmut k hk, runlock_keys] at h
    refine ⟨?_, h.2⟩
    have e := h.1
    simp only [List.replicate, serveAll, serve, runlockCall] at e ⊢
    omega

/-- C8. Readers block a writer until all are released: on every registry in
which the non-empty key `k` has no write lock and reader count `n`,
AcquireWrite(k) is answered 409 when `n > 0`, is still answered 409 after `m`
consecutive ReleaseRead(k) calls for every `m < n`, and is answered 202 after
exactly `n` consecutive ReleaseRead(k) calls. -/
theorem readers_block_writer {w : Nat} (mmut : MapMutex w) (k : String) (hk : k ≠ "")
    (hw : ¬ mmut.writerHeld k) (n : Nat) (hn : mmut.readerCount k = n) :
    (0 < n → (LockHandlerFactory mmut k).1 = 409) ∧
    (∀ m : Nat, m < n →
      (LockHandlerFactory (serveAll mmut (List.replicate m (runlockCall k))) k).1 = 409) ∧
    (LockHandlerFactory (serveAll mmut (List.replicate n (runlockCall k))) k).1 = 202 := by
  simp only [MapMutex.readerCount] at hn
  refine ⟨?_, ?_, ?_⟩
  · intro hp
    rw [lock_of_busy mmut k hk (Or.inr (by omega))]
  · intro m hm
    have h := (serveAll_runlock_replicate k hk m mmut).1
    rw [lock_of_busy _ k hk (Or.inr (by omega))]
  · have h := serveAll_runlock_replicate k hk n mmut
    have hfree : k ∉ (serveAll mmut (List.replicate n (runlockCall k))).Keys := by
      rw [h.2]
      exact hw
    rw [lock_of_free _ k hk hfree (by omega)]

/-- Witness of C8 on a registry with three readers: the writer is refused at
once and after two releases, and admitted after three. -/
theorem readers_block_writer_witness :
    (LockHandlerFactory threeReaders "blah").1 = 409 ∧
    (LockHandlerFactory (serveAll threeReaders (List.replicate 2 (runlockCall "blah")))
      "blah").1 = 409 ∧
    (LockHandlerFactory (serveAll threeReaders (List.replicate 3 (runlockCall "blah")))
      "blah").1 = 202 :=
  ⟨(readers_block_writer threeReaders "blah" (by decide) (by decide) 3 (by decide)).1
      (by decide),
   (readers_block_writer threeReaders "blah" (by decide) (by decide) 3 (by decide)).2.1 2
      (by decide),
   (readers_block_writer threeReaders "blah" (by decide) (by decide) 3 (by decide)).2.2⟩

/-! ## A key without a write lock -/

theorem serve_keeps_free {w : Nat} (mmut : MapMutex w) (k : String) (c : Call)
    (h : k ∉ mmut.Keys) (hc : c = lockCall k → (serve mmut c).1 ≠ 202) :
    k ∉ (serve mmut c).2.Keys := by
  obtain ⟨r, j⟩ := c
  cases r
  · simp only [serve]
    by_cases hj : j = ""
    · subst hj
      rw [lock_of_empty]
      exact h
    · by_cases hf : j ∉ mmut.Keys ∧ (mmut.readers j).val = 0
      · rw [lock_of_free mmut j hj hf.1 hf.2]
        simp only [Finset.mem_insert, not_or]
        refine ⟨?_, h⟩
        rintro rfl
        apply hc rfl
        simp only [serve]
        rw [lock_of_free mmut k hj hf.1 hf.2]
      · have hb : j ∈ mmut.Keys ∨ 0 < (mmut.readers j).val := by
          by_cases hm : j ∈ mmut.Keys
          · exact Or.inl hm
          · exact Or.inr (Nat.pos_of_ne_zero fun h0 => hf ⟨hm, h0⟩)
        rw [lock_of_busy mmut j hj hb]
        exact h
  · simp only [serve]
    by_cases hj : j = ""
    · subst hj
      rw [unlock_of_empty]
      exact h
    · by_cases hm : j ∈ mmut.Keys
      · rw [unlock_of_held mmut j hj hm]
        intro hmem
        exact h (Finset.mem_of_mem_erase hmem)
      · rw [unlock_of_free mmut j hj hm]
        exact h
  · simp only [serve]
    rw [rlock_keys]
    exact h
  · simp only [serve]
    rw [runlock_keys]
    exact h
  · simp only [serve]
    rw [status_state]
    exact h

theorem serveAll_keeps_free {w : Nat} (k : String) (pre : List Call) :
    ∀ (mmut : MapMutex w) (cs post : List Call), k ∉ mmut.Keys →
      (∀ p q : List Call, cs = p ++ lockCall k :: q →
        (serve (serveAll mmut p) (lockCall k)).1 ≠ 202) →
      cs = pre ++ post → k ∉ (serveAll mmut pre).Keys := by
  induction pre with
  | nil => intro mmut cs post h _ _; exact h
  | cons c pre ih =>
    intro mmut cs post h hno e
    have hc : c = lockCall k → (serve mmut c).1 ≠ 202 := by
      intro ec
      subst ec
      exact hno [] (pre ++ post) e
    apply ih (serve mmut c).2 (pre ++ post) post (serve_keeps_free mmut k c h hc) _ rfl
    intro p q e2
    have e3 : cs = (c :: p) ++ lockCall k :: q := by
      rw [e, List.cons_append, List.cons_append, e2]
    exact hno (c :: p) q e3

theorem responses_rlock_replicate {w : Nat} (k : String) (hk : k ≠ "") (n : Nat) :
    ∀ mmut : MapMutex w, k ∉ mmut.Keys →
      responses mmut (List.replicate n (rlockCall k)) = List.replicate n 202 := by
  induction n with
  | zero => intro mmut _; rfl
  | succ n ih =>
    intro mmut h
    have hk2 : k ∉ (RLockHandlerFactory mmut k).2.Keys := by
      rw [rlock_keys]
      exact h
    have e := ih (RLockHandlerFactory mmut k).2 hk2
    simp only [List.replicate, responses, serve, rlockCall] at e ⊢
    rw [e, rlock_of_free mmut k hk h]

/-- C9. Read locks are shared without limit: on every registry in which the
non-empty key `k` has no write lock, along every finite sequence of calls in
which no AcquireWrite(k) is granted (the other calls being arbitrary, ReleaseRead
and QueryStatus on any key included), every AcquireRead(k) is answered 202; in
particular `n` consecutive AcquireRead(k) calls are answered 202 for every
`n`. -/
theorem read_locks_shared {w : Nat} (mmut : MapMutex w) (k : String) (hk : k ≠ "")
    (hw : ¬ mmut.writerHeld k) (cs : List Call)
    (hno : ∀ p q : List Call, cs = p ++ lockCall k :: q →
      (serve (serveAll mmut p) (lockCall k)).1 ≠ 202) :
    (∀ pre post : List Call, cs = pre ++ rlockCall k :: post →
      (serve (serveAll mmut pre) (rlockCall k)).1 = 202) ∧
    (∀ n : Nat, responses mmut (List.replicate n (rlockCall k)) = List.replicate n 202) := by
  constructor
  · intro pre post e
    have hfree := serveAll_keeps_free k pre mmut cs (rlockCall k :: post) hw hno e
    simp only [serve, rlockCall]
    rw [rlock_of_free _ k hk hfree]
  · intro n
    exact responses_rlock_replicate k hk n mmut hw

/-- Witness of C9 on a registry with three readers: in the sequence `rlock`,
`runlock`, `status`, `rlock` the last read lock is granted, and five read
locks in a row are all granted. -/
theorem read_locks_shared_witness :
    (serve (serveAll threeReaders [rlockCall "blah", runlockCall "blah", statusCall "blah"])
      (rlockCall "blah")).1 = 202 ∧
    responses threeReaders (List.replicate 5 (rlockCall "blah")) = List.replicate 5 202 :=
  ⟨(read_locks_shared threeReaders "blah" (by decide) (by decide)
      [rlockCall "blah", runlockCall "blah", statusCall "blah", rlockCall "blah"]
      (by
        intro p q e
        have hm : lockCall "blah" ∈
            [rlockCall "blah", runlockCall "blah", statusCall "blah", rlockCall "blah"] := by
          rw [e]
          exact List.mem_append_right _ (List.mem_cons_self _ _)
        exact absurd hm (by decide))).1
      [rlockCall "blah", runlockCall "blah", statusCall "blah"] [] rfl,
   (read_locks_shared threeReaders "blah" (by decide) (by decide) []
      (by
        intro p q e
        exact absurd e (by simp))).2 5⟩

/-! ## Round trips -/

/-- C10. Write round trip: on every registry in which the non-empty key `k`
is free (no write lock, reader count 0), AcquireWrite(k) followed by
ReleaseWrite(k) is answered 202 then 202, the registry after the pair equals
the registry before it (`Keys` and `RKeys` both), and a following
QueryStatus(k) is answered 200. -/
theorem write_round_trip {w : Nat} (mmut : MapMutex w) (k : String) (hk : k ≠ "")
    (hw : ¬ mmut.writerHeld k) (hr : mmut.readerCount k = 0) :
    (LockHandlerFactory mmut k).1 = 202 ∧
    (UnlockHandlerFactory (LockHandlerFactory mmut k).2 k).1 = 202 ∧
    (UnlockHandlerFactory (LockHandlerFactory mmut k).2 k).2 = mmut ∧
    (StatusHandlerFactory (UnlockHandlerFactory (LockHandlerFactory mmut k).2 k).2 k).1
      = 200 := by
  have hw2 : k ∉ mmut.Keys := hw
  have e1 := lock_of_free mmut k hk hw2 hr
  have hin : k ∈ ({ mmut with Keys := insert k mmut.Keys } : MapMutex w).Keys :=
    Finset.mem_insert_self _ _
  have e2 := unlock_of_held ({ mmut with Keys := insert k mmut.Keys } : MapMutex w) k hk hin
  have e3 : ({ mmut with Keys := (insert k mmut.Keys).erase k } : MapMutex w) = mmut := by
    cases mmut with
    | mk ks rks => simp only [Finset.erase_insert hw2]
  rw [e1, e2]
  simp only [e3]
  refine ⟨trivial, trivial, trivial, ?_⟩
  rw [status_of_free mmut k hk hw2]

/-- Witness of C10 on the empty registry of a 64-bit platform. -/
theorem write_round_trip_witness :
    (LockHandlerFactory (MapMutex.empty 64) "blah").1 = 202 ∧
    (UnlockHandlerFactory (LockHandlerFactory (MapMutex.empty 64) "blah").2 "blah").1 = 202 ∧
    (UnlockHandlerFactory (LockHandlerFactory (MapMutex.empty 64) "blah").2 "blah").2
      = MapMutex.empty 64 ∧
    (StatusHandlerFactory
      (UnlockHandlerFactory (LockHandlerFactory (MapMutex.empty 64) "blah").2 "blah").2
      "blah").1 = 200 :=
  write_round_trip (MapMutex.empty 64) "blah" (by decide) (by decide) (by decide)

/-! ## Requests without a key -/

theorem queryKey_of_missing (param : Option String) (h : param = none ∨ param = some "") :
    queryKey param = "" := by
  rcases h with rfl | rfl <;> rfl

theorem serve_of_empty {w : Nat} (mmut : MapMutex w) (r : Route) :
    serve mmut ⟨r, ""⟩ = (400, mmut) := by
  cases r
  · exact lock_of_empty mmut
  · exact unlock_of_empty mmut
  · exact rlock_of_empty mmut
  · exact runlock_of_empty mmut
  · exact status_of_empty mmut

/-- C11. A missing key is rejected before the registry is touched: on every
registry, each of the five handlers answers a request whose `key` parameter is
absent or empty with 400 and returns the registry unchanged. -/
theorem missing_key_rejected {w : Nat} (mmut : MapMutex w) (param : Option String)
    (h : param = none ∨ param = some "") :
    LockHandlerFactory mmut (queryKey param) = (400, mmut) ∧
    RLockHandlerFactory mmut (queryKey param) = (400, mmut) ∧
    UnlockHandlerFactory mmut (queryKey param) = (400, mmut) ∧
    RUnlockHandlerFactory mmut (queryKey param) = (400, mmut) ∧
    StatusHandlerFactory mmut (queryKey param) = (400, mmut) := by
  rw [queryKey_of_missing param h]
  exact ⟨lock_of_empty mmut, rlock_of_empty mmut, unlock_of_empty mmut,
    runlock_of_empty mmut, status_of_empty mmut⟩

/-- Witness of C11 on a registry with three readers: `lock` without a `key`
parameter and `runlock` with an empty one. -/
theorem missing_key_rejected_witness :
    LockHandlerFactory threeReaders (queryKey none) = (400, threeReaders) ∧
    RUnlockHandlerFactory threeReaders (queryKey (some "")) = (400, threeReaders) :=
  ⟨(missing_key_rejected threeReaders none (Or.inl rfl)).1,
   (missing_key_rejected threeReaders (some "") (Or.inr rfl)).2.2.2.1⟩

/-- C16, the code at the failing input. A request to any of the five routes of
`main` without a `key` parameter is answered 400, which is not the 404 that the
comment in `main` announces. -/
theorem no_key_status_is_not_404 :
    main (MapMutex.empty 64) "/lock" none = (400, MapMutex.empty 64) ∧
    main (MapMutex.empty 64) "/unlock" none = (400, MapMutex.empty 64) ∧
    main (MapMutex.empty 64) "/rlock" none = (400, MapMutex.empty 64) ∧
    main (MapMutex.empty 64) "/runlock" none = (400, MapMutex.empty 64) ∧
    main (MapMutex.empty 64) "/status" none = (400, MapMutex.empty 64) ∧
    (main (MapMutex.empty 64) "/lock" none).1 ≠ 404 := by
  decide

/-- C15, the code at the failing input. The mux of `main` has no pattern for
`/health`: it answers the request 404, with or without a key, and leaves the
registry as it is. -/
theorem health_route_missing_in_main :
    mainPattern "/health" = none ∧
    main (MapMutex.empty 64) "/health" none = (404, MapMutex.empty 64) ∧
    main (MapMutex.empty 64) "/health" (some "blah") = (404, MapMutex.empty 64) ∧
    (main (MapMutex.empty 64) "/health" none).1 ≠ 200 := by
  decide

/-- The mux of `RunLocalhost`, which registers the health handler, answers the
same request 200. -/
theorem health_route_in_RunLocalhost :
    RunLocalhost (MapMutex.empty 64) "/health" none = (200, MapMutex.empty 64) ∧
    RunLocalhost (MapMutex.empty 64) "/health" (some "blah") = (200, MapMutex.empty 64) := by
  decide

/-! ## Each handler, key by key

The registry after a call and the status code written, as functions of the
write flag and the reader count before the call. -/

theorem lock_cases {w : Nat} (mmut : MapMutex w) (k : String) :
    (k = "" ∧ LockHandlerFactory mmut k = (400, mmut)) ∨
    (k ≠ "" ∧ (k ∈ mmut.Keys ∨ 0 < (mmut.readers k).val) ∧
      LockHandlerFactory mmut k = (409, mmut)) ∨
    (k ≠ "" ∧ k ∉ mmut.Keys ∧ (mmut.readers k).val = 0 ∧
      LockHandlerFactory mmut k = (202, { mmut with Keys := insert k mmut.Keys })) := by
  by_cases hk : k = ""
  · subst hk
    exact Or.inl ⟨rfl, lock_of_empty mmut⟩
  · by_cases hm : k ∈ mmut.Keys
    · exact Or.inr (Or.inl ⟨hk, Or.inl hm, lock_of_busy mmut k hk (Or.inl hm)⟩)
    · by_cases hp : 0 < (mmut.readers k).val
      · exact Or.inr (Or.inl ⟨hk, Or.inr hp, lock_of_busy mmut k hk (Or.inr hp)⟩)
      · have h0 : (mmut.readers k).val = 0 := by omega
        exact Or.inr (Or.inr ⟨hk, hm, h0, lock_of_free mmut k hk hm h0⟩)

theorem unlock_cases {w : Nat} (mmut : MapMutex w) (k : String) :
    (k = "" ∧ UnlockHandlerFactory mmut k = (400, mmut)) ∨
    (k ≠ "" ∧ k ∉ mmut.Keys ∧ UnlockHandlerFactory mmut k = (409, mmut)) ∨
    (k ≠ "" ∧ k ∈ mmut.Keys ∧
      UnlockHandlerFactory mmut k = (202, { mmut with Keys := mmut.Keys.erase k })) := by
  by_cases hk : k = ""
  · subst hk
    exact Or.inl ⟨rfl, unlock_of_empty mmut⟩
  · by_cases hm : k ∈ mmut.Keys
    · exact Or.inr (Or.inr ⟨hk, hm, unlock_of_held mmut k hk hm⟩)
    · exact Or.inr (Or.inl ⟨hk, hm, unlock_of_free mmut k hk hm⟩)

theorem rlock_cases {w : Nat} (mmut : MapMutex w) (k : String) :
    (k = "" ∧ RLockHandlerFactory mmut k = (400, mmut)) ∨
    (k ≠ "" ∧ k ∈ mmut.Keys ∧ RLockHandlerFactory mmut k = (409, mmut)) ∨
    (k ≠ "" ∧ k ∉ mmut.Keys ∧ RLockHandlerFactory mmut k
      = (202, { mmut with RKeys := mmut.RKeys.insert k (mmut.readers k).incr })) := by
  by_cases hk : k = ""
  · subst hk
    exact Or.inl ⟨rfl, rlock_of_empty mmut⟩
  · by_cases hm : k ∈ mmut.Keys
    · exact Or.inr (Or.inl ⟨hk, hm, rlock_of_held mmut k hk hm⟩)
    · exact Or.inr (Or.inr ⟨hk, hm, rlock_of_free mmut k hk hm⟩)

theorem runlock_cases {w : Nat} (mmut : MapMutex w) (k : String) :
    (k = "" ∧ RUnlockHandlerFactory mmut k = (400, mmut)) ∨
    (k ≠ "" ∧ (mmut.readers k).val = 0 ∧ RUnlockHandlerFactory mmut k = (202, mmut)) ∨
    (k ≠ "" ∧ 0 < (mmut.readers k).val ∧ RUnlockHandlerFactory mmut k
      = (202, { mmut with RKeys := mmut.RKeys.insert k (mmut.readers k).decr })) := by
  by_cases hk : k = ""
  · subst hk
    exact Or.inl ⟨rfl, runlock_of_empty mmut⟩
  · by_cases hp : 0 < (mmut.readers k).val
    · exact Or.inr (Or.inr ⟨hk, hp, runlock_of_pos mmut k hk hp⟩)
    · have h0 : (mmut.readers k).val = 0 := by omega
      exact Or.inr (Or.inl ⟨hk, h0, runlock_of_zero mmut k hk h0⟩)

theorem lock_rkeys {w : Nat} (mmut : MapMutex w) (k : String) :
    (LockHandlerFactory mmut k).2.RKeys = mmut.RKeys := by
  rcases lock_cases mmut k with ⟨_, e⟩ | ⟨_, _, e⟩ | ⟨_, _, _, e⟩ <;> rw [e]

theorem unlock_rkeys {w : Nat} (mmut : MapMutex w) (k : String) :
    (UnlockHandlerFactory mmut k).2.RKeys = mmut.RKeys := by
  rcases unlock_cases mmut k with ⟨_, e⟩ | ⟨_, _, e⟩ | ⟨_, _, e⟩ <;> rw [e]

theorem readers_of_rkeys {w : Nat} (s t : MapMutex w) (h : s.RKeys = t.RKeys) (j : String) :
    s.readers j = t.readers j := by
  simp only [MapMutex.readers, h]

theorem lock_keys_of_ne {w : Nat} (mmut : MapMutex w) (k j : String) (hjk : j ≠ k) :
    j ∈ (LockHandlerFactory mmut k).2.Keys ↔ j ∈ mmut.Keys := by
  rcases lock_cases mmut k with ⟨_, e⟩ | ⟨_, _, e⟩ | ⟨_, _, _, e⟩ <;> rw [e]
  simp [Finset.mem_insert, hjk]

theorem rlock_readers_of_ne {w : Nat} (mmut : MapMutex w) (k j : String) (hjk : j ≠ k) :
    (RLockHandlerFactory mmut k).2.readers j = mmut.readers j := by
  rcases rlock_cases mmut k with ⟨_, e⟩ | ⟨_, _, e⟩ | ⟨_, _, e⟩ <;> rw [e]
  exact readers_insert_of_ne mmut k j _ hjk

theorem runlock_readers_of_ne {w : Nat} (mmut : MapMutex w) (k j : String) (hjk : j ≠ k) :
    (RUnlockHandlerFactory mmut k).2.readers j = mmut.readers j := by
  rcases runlock_cases mmut k with ⟨_, e⟩ | ⟨_, _, e⟩ | ⟨_, _, e⟩ <;> rw [e]
  exact readers_insert_of_ne mmut k j _ hjk

/-- The status code of a call is fixed by the write flag and the reader count
of its own key. -/
theorem serve_response_congr {w : Nat} (s t : MapMutex w) (c : Call)
    (hkeys : c.key ∈ s.Keys ↔ c.key ∈ t.Keys) (hread : s.readers c.key = t.readers c.key) :
    (serve s c).1 = (serve t c).1 := by
  obtain ⟨r, k⟩ := c
  simp only at hkeys hread
  cases r <;> simp only [serve]
  · simp only [LockHandlerFactory, hkeys, hread]
    split_ifs <;> rfl
  · simp only [UnlockHandlerFactory, hkeys]
    split_ifs <;> rfl
  · simp only [RLockHandlerFactory, hkeys]
    split_ifs <;> rfl
  · simp only [RUnlockHandlerFactory]
    split_ifs <;> rfl
  · simp only [StatusHandlerFactory, hkeys]
    split_ifs <;> rfl

/-- A call on the key `k` leaves the write flag and the reader count of every
other key as they were. -/
theorem serve_frame {w : Nat} (mmut : MapMutex w) (r : Route) (k j : String) (hjk : j ≠ k) :
    (j ∈ (serve mmut ⟨r, k⟩).2.Keys ↔ j ∈ mmut.Keys) ∧
    (serve mmut ⟨r, k⟩).2.readers j = mmut.readers j := by
  cases r <;> simp only [serve]
  · exact ⟨lock_keys_of_ne mmut k j hjk, readers_of_rkeys _ _ (lock_rkeys mmut k) j⟩
  · exact ⟨unlock_keys_of_ne mmut k j hjk, readers_of_rkeys _ _ (unlock_rkeys mmut k) j⟩
  · rw [rlock_keys]
    exact ⟨Iff.rfl, rlock_readers_of_ne mmut k j hjk⟩
  · rw [runlock_keys]
    exact ⟨Iff.rfl, runlock_readers_of_ne mmut k j hjk⟩
  · rw [status_state]
    exact ⟨Iff.rfl, rfl⟩

theorem serveAll_frame {w : Nat} (k j : String) (hjk : j ≠ k) (cs : List Call) :
    ∀ mmut : MapMutex w, (∀ c ∈ cs, c.key = k) →
      (j ∈ (serveAll mmut cs).Keys ↔ j ∈ mmut.Keys) ∧
      (serveAll mmut cs).readers j = mmut.readers j := by
  induction cs with
  | nil => intro mmut _; exact ⟨Iff.rfl, rfl⟩
  | cons c cs ih =>
    intro mmut hall
    have hc : c.key = k := hall c (List.mem_cons_self _ _)
    have h1 := serve_frame mmut c.route k j hjk
    have h2 := ih (serve mmut c).2 (fun d hd => hall d (List.mem_cons_of_mem _ hd))
    have ec : c = ⟨c.route, k⟩ := by rw [← hc]
    rw [← ec] at h1
    simp only [serveAll]
    exact ⟨h2.1.trans h1.1, h2.2.trans h1.2⟩

/-- The write flag and the reader count that a call leaves at its own key are
fixed by the write flag and the reader count found there. -/
theorem serve_self_congr {w : Nat} (s t : MapMutex w) (r : Route) (k : String)
    (hkeys : k ∈ s.Keys ↔ k ∈ t.Keys) (hread : s.readers k = t.readers k) :
    (k ∈ (serve s ⟨r, k⟩).2.Keys ↔ k ∈ (serve t ⟨r, k⟩).2.Keys) ∧
    (serve s ⟨r, k⟩).2.readers k = (serve t ⟨r, k⟩).2.readers k := by
  cases r <;> simp only [serve]
  · rw [readers_of_rkeys _ _ (lock_rkeys s k), readers_of_rkeys _ _ (lock_rkeys t k)]
    refine ⟨?_, hread⟩
    by_cases hk : k = ""
    · subst hk
      rw [lock_of_empty, lock_of_empty]
      exact hkeys
    · by_cases hm : k ∈ s.Keys
      · rw [lock_of_busy s k hk (Or.inl hm), lock_of_busy t k hk (Or.inl (hkeys.mp hm))]
        exact hkeys
      · by_cases hp : 0 < (s.readers k).val
        · rw [lock_of_busy s k hk (Or.inr hp), lock_of_busy t k hk (Or.inr (hread ▸ hp))]
          exact hkeys
        · have h0 : (s.readers k).val = 0 := by omega
          rw [lock_of_free s k hk hm h0,
            lock_of_free t k hk (fun hmt => hm (hkeys.mpr hmt)) (hread ▸ h0)]
          simp only [Finset.mem_insert, true_or]
  · rw [readers_of_rkeys _ _ (unlock_rkeys s k), readers_of_rkeys _ _ (unlock_rkeys t k)]
    refine ⟨?_, hread⟩
    by_cases hk : k = ""
    · subst hk
      rw [unlock_of_empty, unlock_of_empty]
      exact hkeys
    · by_cases hm : k ∈ s.Keys
      · rw [unlock_of_held s k hk hm, unlock_of_held t k hk (hkeys.mp hm)]
        simp only [Finset.mem_erase, ne_eq, not_true_eq_false, false_and]
      · rw [unlock_of_free s k hk hm, unlock_of_free t k hk (fun hmt => hm (hkeys.mpr hmt))]
        exact hkeys
  · rw [rlock_keys, rlock_keys]
    refine ⟨hkeys, ?_⟩
    by_cases hk : k = ""
    · subst hk
      rw [rlock_of_empty, rlock_of_empty]
      exact hread
    · by_cases hm : k ∈ s.Keys
      · rw [rlock_of_held s k hk hm, rlock_of_held t k hk (hkeys.mp hm)]
        exact hread
      · rw [rlock_of_free s k hk hm, rlock_of_free t k hk (fun hmt => hm (hkeys.mpr hmt)),
          readers_insert_self, readers_insert_self, hread]
  · rw [runlock_keys, runlock_keys]
    refine ⟨hkeys, ?_⟩
    by_cases hk : k = ""
    · subst hk
      rw [runlock_of_empty, runlock_of_empty]
      exact hread
    · by_cases hp : 0 < (s.readers k).val
      · rw [runlock_of_pos s k hk hp, runlock_of_pos t k hk (hread ▸ hp),
          readers_insert_self, readers_insert_self, hread]
      · have h0 : (s.readers k).val = 0 := by omega
        rw [runlock_of_zero s k hk h0, runlock_of_zero t k hk (hread ▸ h0)]
        exact hread
  · rw [status_state, status_state]
    exact ⟨hkeys, hread⟩

theorem readers_eq_of_count {w : Nat} (s t : MapMutex w) (k : String)
    (h : s.readerCount k = t.readerCount k) : s.readers k = t.readers k :=
  Subtype.ext h

theorem serve_agree {w : Nat} (s t : MapMutex w) (c : Call) (h : Agree s t) :
    (serve s c).1 = (serve t c).1 ∧ Agree (serve s c).2 (serve t c).2 := by
  obtain ⟨r, k⟩ := c
  refine ⟨serve_response_congr s t ⟨r, k⟩ (h k).1 (readers_eq_of_count s t k (h k).2), ?_⟩
  intro j
  by_cases hjk : j = k
  · subst hjk
    have hs := serve_self_congr s t r j (h j).1 (readers_eq_of_count s t j (h j).2)
    exact ⟨hs.1, congrArg Subtype.val hs.2⟩
  · have h1 := serve_frame s r k j hjk
    have h2 := serve_frame t r k j hjk
    refine ⟨?_, ?_⟩
    · exact h1.1.trans ((h j).1.trans h2.1.symm)
    · simp only [MapMutex.readerCount]
      rw [h1.2, h2.2]
      exact (h j).2

theorem responses_agree {w : Nat} (cs : List Call) :
    ∀ s t : MapMutex w, Agree s t →
      responses s cs = responses t cs ∧ Agree (serveAll s cs) (serveAll t cs) := by
  induction cs with
  | nil => intro s t h; exact ⟨rfl, h⟩
  | cons c cs ih =>
    intro s t h
    have hc := serve_agree s t c h
    have hr := ih _ _ hc.2
    simp only [responses, serveAll]
    rw [hc.1, hr.1]
    exact ⟨rfl, hr.2⟩

theorem zeroEntry_agree : Agree (MapMutex.empty 64) zeroEntry := by
  intro k
  refine ⟨Iff.rfl, ?_⟩
  by_cases hk : k = "blah"
  · subst hk
    rfl
  · simp only [MapMutex.readerCount, MapMutex.readers, zeroEntry, MapMutex.empty,
      Finmap.lookup_insert_of_ne _ hk]

/-- C12. Absent and zero-valued entries are indistinguishable: if two
registries agree, for every key, on whether a write lock is held and on the
reader count (a key without an entry in `RKeys` counting as 0), then every call
of every handler on every key is answered with the same status code by both and
leaves two registries that agree again; hence every sequence of calls draws the
same status codes from both and leaves them in agreement. -/
theorem absent_zero_indistinguishable {w : Nat} (s t : MapMutex w) (h : Agree s t) :
    (∀ c : Call, (serve s c).1 = (serve t c).1 ∧ Agree (serve s c).2 (serve t c).2) ∧
    (∀ cs : List Call,
      responses s cs = responses t cs ∧ Agree (serveAll s cs) (serveAll t cs)) :=
  ⟨fun c => serve_agree s t c h, fun cs => responses_agree cs s t h⟩

/-- Witness of C12: the empty registry and the registry holding the entry
`"blah" : 0` differ as values and answer the same to `lock`, `rlock`,
`runlock`, `runlock`, `lock`, `status`. -/
theorem absent_zero_indistinguishable_witness :
    MapMutex.empty 64 ≠ zeroEntry ∧
    responses (MapMutex.empty 64)
        [lockCall "blah", rlockCall "blah", runlockCall "blah", runlockCall "blah",
          lockCall "blah", statusCall "blah"]
      = responses zeroEntry
        [lockCall "blah", rlockCall "blah", runlockCall "blah", runlockCall "blah",
          lockCall "blah", statusCall "blah"] :=
  ⟨by decide, ((absent_zero_indistinguishable (MapMutex.empty 64) zeroEntry
    zeroEntry_agree).2 _).1⟩

/-! ## Frame -/

/-- C17. Frame: a call on the key `k` changes at most the one field it names
at `k`.  AcquireWrite(k) and ReleaseWrite(k) leave the reader count of every
key and the write flag of every other key unchanged; AcquireRead(k) and
ReleaseRead(k) leave the write flag of every key and the reader count of every
other key unchanged; so after any sequence of calls on `k`, a call on another
key is answered as it would have been before the sequence. -/
theorem frame_of_calls {w : Nat} (mmut : MapMutex w) (k : String) :
    (∀ j : String, (LockHandlerFactory mmut k).2.readerCount j = mmut.readerCount j) ∧
    (∀ j : String, j ≠ k →
      ((LockHandlerFactory mmut k).2.writerHeld j ↔ mmut.writerHeld j)) ∧
    (∀ j : String, (UnlockHandlerFactory mmut k).2.readerCount j = mmut.readerCount j) ∧
    (∀ j : String, j ≠ k →
      ((UnlockHandlerFactory mmut k).2.writerHeld j ↔ mmut.writerHeld j)) ∧
    (∀ j : String, (RLockHandlerFactory mmut k).2.writerHeld j ↔ mmut.writerHeld j) ∧
    (∀ j : String, j ≠ k →
      (RLockHandlerFactory mmut k).2.readerCount j = mmut.readerCount j) ∧
    (∀ j : String, (RUnlockHandlerFactory mmut k).2.writerHeld j ↔ mmut.writerHeld j) ∧
    (∀ j : String, j ≠ k →
      (RUnlockHandlerFactory mmut k).2.readerCount j = mmut.readerCount j) ∧
    (∀ (cs : List Call) (d : Call), (∀ c ∈ cs, c.key = k) → d.key ≠ k →
      (serve (serveAll mmut cs) d).1 = (serve mmut d).1) := by
  refine ⟨?_, ?_, ?_, ?_, ?_, ?_, ?_, ?_, ?_⟩
  · intro j
    exact congrArg Subtype.val (readers_of_rkeys _ _ (lock_rkeys mmut k) j)
  · intro j hjk
    exact lock_keys_of_ne mmut k j hjk
  · intro j
    exact congrArg Subtype.val (readers_of_rkeys _ _ (unlock_rkeys mmut k) j)
  · intro j hjk
    exact unlock_keys_of_ne mmut k j hjk
  · intro j
    simp only [MapMutex.writerHeld, rlock_keys]
  · intro j hjk
    exact congrArg Subtype.val (rlock_readers_of_ne mmut k j hjk)
  · intro j
    simp only [MapMutex.writerHeld, runlock_keys]
  · intro j hjk
    exact congrArg Subtype.val (runlock_readers_of_ne mmut k j hjk)
  · intro cs d hall hd
    have h := serveAll_frame k d.key hd cs mmut hall
    exact serve_response_congr _ _ d h.1 h.2

/-- Witness of C17 on a registry with three readers of `"blah"`: a read lock on
`"other"` leaves the count of `"blah"` at 3, and after `rlock`, `lock`,
`runlock` on `"other"` a `lock` on `"blah"` is answered as before. -/
theorem frame_of_calls_witness :
    (RLockHandlerFactory threeReaders "other").2.readerCount "blah" = 3 ∧
    (serve (serveAll threeReaders
        [rlockCall "other", lockCall "other", runlockCall "other"]) (lockCall "blah")).1
      = (serve threeReaders (lockCall "blah")).1 :=
  ⟨(frame_of_calls threeReaders "other").2.2.2.2.2.1 "blah" (by decide),
   (frame_of_calls threeReaders "other").2.2.2.2.2.2.2.2
      [rlockCall "other", lockCall "other", runlockCall "other"] (lockCall "blah")
      (by decide) (by decide)⟩

/-! ## Releasing a read lock twice -/

/-- C13, counterexample. On a registry with three readers of `"blah"`, one
ReleaseRead leaves a count of 2 and two leave a count of 1: the second call is
not a no-op. -/
theorem releaseRead_twice_counterexample :
    (RUnlockHandlerFactory threeReaders "blah").2.readerCount "blah" = 2 ∧
    (RUnlockHandlerFactory (RUnlockHandlerFactory threeReaders "blah").2 "blah").2.readerCount
      "blah" = 1 ∧
    ¬ ((RUnlockHandlerFactory (RUnlockHandlerFactory threeReaders "blah").2 "blah").1
          = (RUnlockHandlerFactory threeReaders "blah").1 ∧
        ∀ j : String,
          ((RUnlockHandlerFactory (RUnlockHandlerFactory threeReaders "blah").2
              "blah").2.writerHeld j ↔
            (RUnlockHandlerFactory threeReaders "blah").2.writerHeld j) ∧
          (RUnlockHandlerFactory (RUnlockHandlerFactory threeReaders "blah").2
              "blah").2.readerCount j
            = (RUnlockHandlerFactory threeReaders "blah").2.readerCount j) := by
  refine ⟨by decide, by decide, ?_⟩
  intro h
  exact absurd (h.2 "blah").2 (by decide)

/-- C13, amended. ReleaseRead answers the same status code the second time as
the first on every registry and every key; calling it twice leaves the same
registry as calling it once exactly when the key is empty or the reader count
of the key is at most 1 before the first call; on a non-empty key with a count
above 1 the second call lowers the count by one more. -/
theorem releaseRead_twice {w : Nat} (mmut : MapMutex w) (k : String) :
    (RUnlockHandlerFactory (RUnlockHandlerFactory mmut k).2 k).1
      = (RUnlockHandlerFactory mmut k).1 ∧
    ((RUnlockHandlerFactory (RUnlockHandlerFactory mmut k).2 k).2
        = (RUnlockHandlerFactory mmut k).2 ↔ k = "" ∨ mmut.readerCount k ≤ 1) ∧
    (k ≠ "" → 1 < mmut.readerCount k →
      (RUnlockHandlerFactory (RUnlockHandlerFactory mmut k).2 k).2.readerCount k + 1
        = (RUnlockHandlerFactory mmut k).2.readerCount k) := by
  by_cases hk : k = ""
  · subst hk
    simp only [runlock_of_empty, true_or, iff_true, ne_eq, not_true_eq_false, false_implies,
      and_self]
  · have hone := runlock_readers_self mmut k hk
    have htwo := runlock_readers_self (RUnlockHandlerFactory mmut k).2 k hk
    refine ⟨?_, ?_, ?_⟩
    · rcases runlock_cases mmut k with ⟨h, _⟩ | ⟨_, _, e⟩ | ⟨_, _, e⟩
      · exact absurd h hk
      · rw [e, e]
      · rcases runlock_cases (RUnlockHandlerFactory mmut k).2 k with
          ⟨h, _⟩ | ⟨_, _, e2⟩ | ⟨_, _, e2⟩
        · exact absurd h hk
        · rw [e2, e]
        · rw [e2, e]
    · constructor
      · intro e
        right
        have e2 := congrArg (fun s : MapMutex w => (s.readers k).val) e
        simp only [htwo, hone] at e2
        simp only [MapMutex.readerCount]
        omega
      · rintro (h | h)
        · exact absurd h hk
        · simp only [MapMutex.readerCount] at h
          have h0 : ((RUnlockHandlerFactory mmut k).2.readers k).val = 0 := by omega
          rw [runlock_of_zero _ k hk h0]
    · intro _ h1
      simp only [MapMutex.readerCount] at h1 ⊢
      omega

/-- Witness of C13 (amended): on the empty registry the second ReleaseRead of
`"blah"` changes nothing, on a registry with three readers it lowers the count
once more. -/
theorem releaseRead_twice_witness :
    (RUnlockHandlerFactory (RUnlockHandlerFactory (MapMutex.empty 64) "blah").2 "blah").2
      = (RUnlockHandlerFactory (MapMutex.empty 64) "blah").2 ∧
    (RUnlockHandlerFactory (RUnlockHandlerFactory threeReaders "blah").2 "blah").2.readerCount
        "blah" + 1
      = (RUnlockHandlerFactory threeReaders "blah").2.readerCount "blah" :=
  ⟨(releaseRead_twice (MapMutex.empty 64) "blah").2.1.mpr (by decide),
   (releaseRead_twice threeReaders "blah").2.2 (by decide) (by decide)⟩

/-! ## Read round trip -/

/-- C18, counterexample. On a 64-bit platform, with no write lock on `"blah"`
and a reader count of `2 ^ 64 - 1`, AcquireRead wraps the count to 0 and the
ReleaseRead that follows finds nothing to release: the count after the pair is
0, not the count before it. -/
theorem read_round_trip_counterexample :
    ¬ maxReaders.writerHeld "blah" ∧
    (RLockHandlerFactory maxReaders "blah").1 = 202 ∧
    (RUnlockHandlerFactory (RLockHandlerFactory maxReaders "blah").2 "blah").1 = 202 ∧
    (RUnlockHandlerFactory (RLockHandlerFactory maxReaders "blah").2 "blah").2.readerCount
      "blah" = 0 ∧
    (RUnlockHandlerFactory (RLockHandlerFactory maxReaders "blah").2 "blah").2.readerCount
      "blah" ≠ maxReaders.readerCount "blah" := by
  decide

/-- C18, amended. Read round trip: on every registry in which the non-empty
key `k` has no write lock, AcquireRead(k) followed by ReleaseRead(k) is
answered 202 then 202, leaves every write flag and every other reader count
unchanged, and QueryStatus(k) before, between and after is answered 200; the
pair restores the reader count of `k` whenever that count is below the largest
`uint` before the pair. -/
theorem read_round_trip {w : Nat} (mmut : MapMutex w) (k : String) (hk : k ≠ "")
    (hw : ¬ mmut.writerHeld k) :
    (RLockHandlerFactory mmut k).1 = 202 ∧
    (RUnlockHandlerFactory (RLockHandlerFactory mmut k).2 k).1 = 202 ∧
    (mmut.readerCount k + 1 < 2 ^ w →
      (RUnlockHandlerFactory (RLockHandlerFactory mmut k).2 k).2.readerCount k
        = mmut.readerCount k) ∧
    (∀ j : String,
      (RUnlockHandlerFactory (RLockHandlerFactory mmut k).2 k).2.writerHeld j
        ↔ mmut.writerHeld j) ∧
    (∀ j : String, j ≠ k →
      (RUnlockHandlerFactory (RLockHandlerFactory mmut k).2 k).2.readerCount j
        = mmut.readerCount j) ∧
    (StatusHandlerFactory mmut k).1 = 200 ∧
    (StatusHandlerFactory (RLockHandlerFactory mmut k).2 k).1 = 200 ∧
    (StatusHandlerFactory (RUnlockHandlerFactory (RLockHandlerFactory mmut k).2 k).2 k).1
      = 200 := by
  have hm : k ∉ mmut.Keys := hw
  have hm1 : k ∉ (RLockHandlerFactory mmut k).2.Keys := by
    rw [rlock_keys]
    exact hm
  have hm2 : k ∉ (RUnlockHandlerFactory (RLockHandlerFactory mmut k).2 k).2.Keys := by
    rw [runlock_keys]
    exact hm1
  refine ⟨?_, ?_, ?_, ?_, ?_, ?_, ?_, ?_⟩
  · rw [rlock_of_free mmut k hk hm]
  · rcases runlock_cases (RLockHandlerFactory mmut k).2 k with ⟨h, _⟩ | ⟨_, _, e⟩ | ⟨_, _, e⟩
    · exact absurd h hk
    · rw [e]
    · rw [e]
  · intro hlt
    have h1 : ((RLockHandlerFactory mmut k).2.readers k).val = (mmut.readers k).val + 1 := by
      rw [rlock_of_free mmut k hk hm, readers_insert_self]
      exact incr_val_of_lt _ hlt
    have h2 := runlock_readers_self (RLockHandlerFactory mmut k).2 k hk
    simp only [MapMutex.readerCount]
    omega
  · intro j
    simp only [MapMutex.writerHeld, runlock_keys, rlock_keys]
  · intro j hjk
    simp only [MapMutex.readerCount]
    rw [runlock_readers_of_ne _ k j hjk, rlock_readers_of_ne _ k j hjk]
  · rw [status_of_free mmut k hk hm]
  · rw [status_of_free _ k hk hm1]
  · rw [status_of_free _ k hk hm2]

/-- Witness of C18 (amended) on a registry with three readers: 202, 202 and
three readers again. -/
theorem read_round_trip_witness :
    (RLockHandlerFactory threeReaders "blah").1 = 202 ∧
    (RUnlockHandlerFactory (RLockHandlerFactory threeReaders "blah").2 "blah").1 = 202 ∧
    (RUnlockHandlerFactory (RLockHandlerFactory threeReaders "blah").2 "blah").2.readerCount
      "blah" = threeReaders.readerCount "blah" :=
  ⟨(read_round_trip threeReaders "blah" (by decide) (by decide)).1,
   (read_round_trip threeReaders "blah" (by decide) (by decide)).2.1,
   (read_round_trip threeReaders "blah" (by decide) (by decide)).2.2.1 (by decide)⟩

/-! ## Reader counts in machine arithmetic -/

theorem incr_val_le {w : Nat} (x : GoUint w) : x.incr.val ≤ x.val + 1 :=
  Nat.mod_le _ _

theorem serve_readerCount_le {w : Nat} (mmut : MapMutex w) (c : Call) (j : String) :
    (serve mmut c).2.readerCount j ≤ mmut.readerCount j + 1 := by
  obtain ⟨r, k⟩ := c
  by_cases hjk : j = k
  · subst hjk
    simp only [MapMutex.readerCount]
    cases r <;> simp only [serve]
    · rw [readers_of_rkeys _ _ (lock_rkeys mmut j) j]
      omega
    · rw [readers_of_rkeys _ _ (unlock_rkeys mmut j) j]
      omega
    · rcases rlock_cases mmut j with ⟨_, e⟩ | ⟨_, _, e⟩ | ⟨_, _, e⟩
      · rw [e]
        exact Nat.le_succ _
      · rw [e]
        exact Nat.le_succ _
      · rw [e, readers_insert_self]
        exact incr_val_le _
    · rcases runlock_cases mmut j with ⟨_, e⟩ | ⟨_, _, e⟩ | ⟨_, hp, e⟩
      · rw [e]
        exact Nat.le_succ _
      · rw [e]
        exact Nat.le_succ _
      · rw [e, readers_insert_self, decr_val_of_pos _ hp]
        omega
    · rw [status_state]
      omega
  · simp only [MapMutex.readerCount, (serve_frame mmut r k j hjk).2]
    omega

theorem serveAll_readerCount_le {w : Nat} (j : String) (cs : List Call) :
    ∀ mmut : MapMutex w, (serveAll mmut cs).readerCount j ≤ mmut.readerCount j + cs.length := by
  induction cs with
  | nil => intro mmut; exact Nat.le_refl _
  | cons c cs ih =>
    intro mmut
    have h1 := serve_readerCount_le mmut c j
    have h2 := ih (serve mmut c).2
    simp only [serveAll, List.length_cons]
    omega

theorem empty_readerCount (w : Nat) (j : String) : (MapMutex.empty w).readerCount j = 0 := by
  simp [MapMutex.readerCount, MapMutex.readers, MapMutex.empty, GoUint.zero]

theorem serve_readerCount_empty_key {w : Nat} (mmut : MapMutex w) (c : Call) :
    (serve mmut c).2.readerCount "" = mmut.readerCount "" := by
  obtain ⟨r, j⟩ := c
  by_cases hj : j = ""
  · subst hj
    rw [serve_of_empty]
  · simp only [MapMutex.readerCount, (serve_frame mmut r j "" (fun e => hj e.symm)).2]

/-- One call moves the reader count of `k` by the two indicators that
`grantedReads` and `positiveReleases` add up. -/
theorem serve_count_step {w : Nat} (mmut : MapMutex w) (k : String) (c : Call)
    (hlt : mmut.readerCount k + 1 < 2 ^ w) (h0 : k = "" → mmut.readerCount k = 0) :
    (serve mmut c).2.readerCount k
        + (if c = runlockCall k ∧ 0 < mmut.readerCount k then 1 else 0)
      = mmut.readerCount k
        + (if c = rlockCall k ∧ (serve mmut c).1 = StatusAccepted then 1 else 0) := by
  obtain ⟨r, j⟩ := c
  by_cases hjk : j = k
  · subst hjk
    cases r
    · have e : (serve mmut ⟨Route.lock, j⟩).2.readerCount j = mmut.readerCount j :=
        congrArg Subtype.val (readers_of_rkeys _ _ (lock_rkeys mmut j) j)
      simp [e, runlockCall, rlockCall]
    · have e : (serve mmut ⟨Route.unlock, j⟩).2.readerCount j = mmut.readerCount j :=
        congrArg Subtype.val (readers_of_rkeys _ _ (unlock_rkeys mmut j) j)
      simp [e, runlockCall, rlockCall]
    · rcases rlock_cases mmut j with ⟨_, e⟩ | ⟨_, _, e⟩ | ⟨_, _, e⟩
      · simp [serve, e, runlockCall, rlockCall, StatusAccepted]
      · simp [serve, e, runlockCall, rlockCall, StatusAccepted]
      · have hv : (mmut.readers j).incr.val = (mmut.readers j).val + 1 :=
          incr_val_of_lt _ hlt
        simp [serve, e, runlockCall, rlockCall, StatusAccepted, MapMutex.readerCount,
          readers_insert_self, hv]
    · rcases runlock_cases mmut j with ⟨hj, e⟩ | ⟨_, hz, e⟩ | ⟨_, hp, e⟩
      · have hz := h0 hj
        simp [serve, e, runlockCall, rlockCall, hz]
      · have hz2 : mmut.readerCount j = 0 := hz
        simp [serve, e, runlockCall, rlockCall, hz2]
      · have hv := decr_val_of_pos _ hp
        have hp2 : 0 < mmut.readerCount j := hp
        simp only [serve, e, runlockCall, rlockCall, MapMutex.readerCount,
          readers_insert_self, hv]
        simp only [MapMutex.readerCount] at hp2
        simp [hp2]
        omega
    · have e : (serve mmut ⟨Route.status, j⟩).2.readerCount j = mmut.readerCount j := by
        simp only [serve]
        rw [status_state]
      simp [e, runlockCall, rlockCall]
  · have e : (serve mmut ⟨r, j⟩).2.readerCount k = mmut.readerCount k :=
      congrArg Subtype.val (serve_frame mmut r j k (fun h => hjk h.symm)).2
    simp [e, runlockCall, rlockCall, hjk]

theorem serveAll_count {w : Nat} (k : String) (cs : List Call) :
    ∀ mmut : MapMutex w, mmut.readerCount k + cs.length < 2 ^ w →
      (k = "" → mmut.readerCount k = 0) →
      (serveAll mmut cs).readerCount k + positiveReleases k mmut cs
        = mmut.readerCount k + grantedReads k mmut cs := by
  induction cs with
  | nil => intro mmut _ _; rfl
  | cons c cs ih =>
    intro mmut hlt h0
    simp only [List.length_cons] at hlt
    have hstep := serve_count_step mmut k c (by omega) h0
    have hle := serve_readerCount_le mmut c k
    have h0next : k = "" → (serve mmut c).2.readerCount k = 0 := by
      intro hk
      subst hk
      rw [serve_readerCount_empty_key]
      exact h0 rfl
    have hrec := ih (serve mmut c).2 (by omega) h0next
    simp only [serveAll, positiveReleases, grantedReads]
    omega

theorem serveAll_readerCount_empty_key {w : Nat} (cs : List Call) :
    ∀ mmut : MapMutex w, (serveAll mmut cs).readerCount "" = mmut.readerCount "" := by
  induction cs with
  | nil => intro mmut; rfl
  | cons c cs ih =>
    intro mmut
    simp only [serveAll]
    rw [ih, serve_readerCount_empty_key]

/-- C19. Reader counts are exact in machine arithmetic: with `w` the bit width
of `uint`, in the registry reached from the empty one by fewer than `2 ^ w`
calls, the reader count of every key `k` is the number of AcquireRead(k) calls
answered 202 minus the number of ReleaseRead(k) calls made while the count was
positive; and along the sequence every granted AcquireRead raises the count of
its key by exactly one and every ReleaseRead made on a positive count lowers
it by exactly one, so neither `+= 1` nor `-= 1` wraps modulo `2 ^ w`. -/
theorem reader_count_exact (w : Nat) (cs : List Call) (hlen : cs.length < 2 ^ w)
    (k : String) :
    (serveAll (MapMutex.empty w) cs).readerCount k
        + positiveReleases k (MapMutex.empty w) cs
      = grantedReads k (MapMutex.empty w) cs ∧
    (serveAll (MapMutex.empty w) cs).readerCount k
      = grantedReads k (MapMutex.empty w) cs - positiveReleases k (MapMutex.empty w) cs ∧
    (∀ (pre : List Call) (c : Call) (post : List Call), cs = pre ++ c :: post →
      (c.route = Route.rlock → (serve (serveAll (MapMutex.empty w) pre) c).1 = 202 →
        (serve (serveAll (MapMutex.empty w) pre) c).2.readerCount c.key
          = (serveAll (MapMutex.empty w) pre).readerCount c.key + 1) ∧
      (c.route = Route.runlock → 0 < (serveAll (MapMutex.empty w) pre).readerCount c.key →
        (serve (serveAll (MapMutex.empty w) pre) c).2.readerCount c.key + 1
          = (serveAll (MapMutex.empty w) pre).readerCount c.key)) := by
  have hsum := serveAll_count k cs (MapMutex.empty w)
    (by rw [empty_readerCount]; omega) (fun _ => empty_readerCount w k)
  rw [empty_readerCount] at hsum
  refine ⟨by omega, by omega, ?_⟩
  intro pre c post e
  have hle := serveAll_readerCount_le c.key pre (MapMutex.empty w)
  rw [empty_readerCount] at hle
  have hl : cs.length = pre.length + (post.length + 1) := by
    rw [e, List.length_append, List.length_cons]
  obtain ⟨r, j⟩ := c
  simp only at hle ⊢
  constructor
  · rintro rfl hresp
    simp only [serve] at hresp ⊢
    rcases rlock_cases (serveAll (MapMutex.empty w) pre) j with
      ⟨_, e2⟩ | ⟨_, _, e2⟩ | ⟨_, _, e2⟩
    · rw [e2] at hresp
      exact absurd (show (400 : Nat) = 202 from hresp) (by decide)
    · rw [e2] at hresp
      exact absurd (show (409 : Nat) = 202 from hresp) (by decide)
    · rw [e2]
      simp only [MapMutex.readerCount, readers_insert_self]
      apply incr_val_of_lt
      simp only [MapMutex.readerCount] at hle
      omega
  · rintro rfl hpos
    simp only [serve]
    rcases runlock_cases (serveAll (MapMutex.empty w) pre) j with
      ⟨hj, _⟩ | ⟨_, hz, _⟩ | ⟨_, hp, e2⟩
    · subst hj
      rw [serveAll_readerCount_empty_key, empty_readerCount] at hpos
      exact absurd hpos (by decide)
    · simp only [MapMutex.readerCount] at hpos
      omega
    · rw [e2]
      simp only [MapMutex.readerCount, readers_insert_self, decr_val_of_pos _ hp]
      omega

/-- Witness of C19 on a 64-bit platform: after `rlock`, `rlock`, `lock`,
`runlock`, `runlock`, `runlock`, `rlock` on `"blah"` the count is the three
grants minus the two releases made on a positive count. -/
theorem reader_count_exact_witness :
    (serveAll (MapMutex.empty 64)
        [rlockCall "blah", rlockCall "blah", lockCall "blah", runlockCall "blah",
          runlockCall "blah", runlockCall "blah", rlockCall "blah"]).readerCount "blah"
      = grantedReads "blah" (MapMutex.empty 64)
          [rlockCall "blah", rlockCall "blah", lockCall "blah", runlockCall "blah",
            runlockCall "blah", runlockCall "blah", rlockCall "blah"]
        - positiveReleases "blah" (MapMutex.empty 64)
          [rlockCall "blah", rlockCall "blah", lockCall "blah", runlockCall "blah",
            runlockCall "blah", runlockCall "blah", rlockCall "blah"] :=
  (reader_count_exact 64
    [rlockCall "blah", rlockCall "blah", lockCall "blah", runlockCall "blah",
      runlockCall "blah", runlockCall "blah", rlockCall "blah"] (by decide) "blah").2.1

theorem reader_count_scenario :
    (serveAll (MapMutex.empty 64)
        [rlockCall "blah", rlockCall "blah", lockCall "blah", runlockCall "blah",
          runlockCall "blah", runlockCall "blah", rlockCall "blah"]).readerCount "blah" = 1 ∧
    grantedReads "blah" (MapMutex.empty 64)
        [rlockCall "blah", rlockCall "blah", lockCall "blah", runlockCall "blah",
          runlockCall "blah", runlockCall "blah", rlockCall "blah"] = 3 ∧
    positiveReleases "blah" (MapMutex.empty 64)
        [rlockCall "blah", rlockCall "blah", lockCall "blah", runlockCall "blah",
          runlockCall "blah", runlockCall "blah", rlockCall "blah"] = 2 := by
  decide

/-! ## The scenarios of `TestSerial`, each run from the empty registry -/

theorem test_lock_unlock_good :
    responses (MapMutex.empty 64) [lockCall "blah", unlockCall "blah", statusCall "blah"]
      = [202, 202, 200] := by
  decide

theorem test_rlock_lock_runlock_lock :
    responses (MapMutex.empty 64)
      [rlockCall "blah", lockCall "blah", runlockCall "blah", lockCall "blah"]
      = [202, 409, 202, 202] := by
  decide

theorem test_rlock_status_runlock_status :
    responses (MapMutex.empty 64)
      [rlockCall "blah", statusCall "blah", runlockCall "blah", statusCall "blah"]
      = [202, 200, 202, 200] := by
  decide

theorem test_lock_rlock_unlock_rlock :
    responses (MapMutex.empty 64)
      [lockCall "blah", rlockCall "blah", unlockCall "blah", rlockCall "blah"]
      = [202, 409, 202, 202] := by
  decide

theorem test_lock_status_lock :
    responses (MapMutex.empty 64) [lockCall "blah", statusCall "blah", lockCall "blah"]
      = [202, 423, 409] := by
  decide

theorem test_unlock :
    responses (MapMutex.empty 64) [unlockCall "blah"] = [409] := by
  decide

theorem test_status_lock_status_unlock_status :
    responses (MapMutex.empty 64)
      [statusCall "blah", lockCall "blah", statusCall "blah", unlockCall "blah",
        statusCall "blah"]
      = [200, 202, 423, 202, 200] := by
  decide

end Stoplight
